import Mathlib

/-!
# Admin console commands of alfresco-simple-content-stores

A shallow embedding of the web script
`src/main/webscripts/de/acosix/simple-content-stores/admin/console-commands.post.json.js`.

The script is JavaScript run by the repository's web script engine. It reads the service URL
and the JSON request body, writes the `status` and `model` root objects and calls two Java
beans (the master key manager and the encrypting content store manager). The embedding keeps

* JavaScript strings as lists of characters (`indexOf`, `lastIndexOf` and `substring` count
  characters; `':'` and `'/'` are single code units, so the parts cut out are the same),
* the JSON values an argument can be, with the string conversion the script applies to them,
* the two regular expressions of the script as patterns run by a derivative matcher,
* `status`, `model`, the sequence of bean calls and what ended the run early as explicit
  state,
* the Java beans as a parameter `Core`: their code is not part of the script.

The script has no `try`, so a TypeError raised by a string conversion or a Java exception
thrown by a bean call ends the run where it is raised. The bean lookups in the application context and the constructor of
`MasterKeyReference` are taken to return; the lookups are recorded among the calls.
-/

namespace ConsoleCommands

/-! ## JavaScript strings -/

/-- JavaScript string, as the sequence of its characters. -/
abbrev JSString := List Char

/-- `String.prototype.indexOf` for a one-character search string: the position of the first
occurrence, `-1` when there is none. -/
def indexOf : JSString → Char → Int
  | [], _ => -1
  | x :: xs, c =>
    if x = c then 0
    else
      let r := indexOf xs c
      if r < 0 then -1 else r + 1

/-- `String.prototype.lastIndexOf` for a one-character search string: the position of the last
occurrence, `-1` when there is none. -/
def lastIndexOf : JSString → Char → Int
  | [], _ => -1
  | x :: xs, c =>
    let r := lastIndexOf xs c
    if 0 ≤ r then r + 1
    else if x = c then 0 else -1

/-- `String.prototype.substring(indexStart, indexEnd)`: both indices are clamped to
`[0, length]` and swapped when the first is the larger one. -/
def substring (s : JSString) (indexStart indexEnd : Int) : JSString :=
  let len : Int := s.length
  let finalStart := min (max indexStart 0) len
  let finalEnd := min (max indexEnd 0) len
  let lo := min finalStart finalEnd
  let hi := max finalStart finalEnd
  (s.drop lo.toNat).take (hi - lo).toNat

/-- `String.prototype.substring(indexStart)`: the end index defaults to the length. -/
def substringFrom (s : JSString) (indexStart : Int) : JSString :=
  substring s indexStart s.length

/-! ## JSON values and their conversions -/

/-- Values an element of `reqArgs` can be: what `JSON.parse` produces, and `undefined` for an
index that is not there. A number carries the text that `ToString` gives for it. -/
inductive JSValue where
  | undefined
  | null
  | bool (b : Bool)
  | number (text : JSString)
  | string (s : JSString)
  | array (items : List JSValue)
  | object (members : List (JSString × JSValue))

/-- `ToString` of an object made by `JSON.parse`. Without an own member named `toString` the
inherited method gives `[object Object]`. An own member of that name is a JSON value, hence
not callable, and the inherited `valueOf` returns the object itself, so the conversion
throws a TypeError: `none`. -/
def objectToString (members : List (JSString × JSValue)) : Option JSString :=
  if members.any (fun m => m.1 = "toString".toList) then none
  else some "[object Object]".toList

mutual
/-- `ToString` of a value, which is what `String(v)` and `RegExp.prototype.test(v)` apply;
`none` when the conversion throws a TypeError. -/
def JSValue.toJSString : JSValue → Option JSString
  | .undefined => some "undefined".toList
  | .null => some "null".toList
  | .bool true => some "true".toList
  | .bool false => some "false".toList
  | .number text => some text
  | .string s => some s
  | .array items => JSValue.joinItems items
  | .object members => objectToString members
/-- `Array.prototype.join(",")`: `undefined` and `null` elements give the empty string, and
a conversion that throws makes the join throw. -/
def JSValue.joinItems : List JSValue → Option JSString
  | [] => some []
  | [v] => JSValue.itemString v
  | v :: w :: rest =>
    match JSValue.itemString v, JSValue.joinItems (w :: rest) with
    | some a, some b => some (a ++ ',' :: b)
    | _, _ => none
/-- Text of one array element inside `join`. -/
def JSValue.itemString : JSValue → Option JSString
  | .undefined => some []
  | .null => some []
  | .bool true => some "true".toList
  | .bool false => some "false".toList
  | .number text => some text
  | .string s => some s
  | .array items => JSValue.joinItems items
  | .object members => objectToString members
end

/-- `ToBoolean` of a value, as used by `&&`, `||` and `if`. -/
def JSValue.truthy : JSValue → Bool
  | .undefined => false
  | .null => false
  | .bool b => b
  | .number text => !(text = "0".toList || text = "NaN".toList)
  | .string s => !s.isEmpty
  | .array _ => true
  | .object _ => true

/-- `Array.isArray`. -/
def JSValue.isArray : JSValue → Bool
  | .array _ => true
  | _ => false

/-- `a || b` on values. -/
def JSValue.or (a b : JSValue) : JSValue :=
  if a.truthy then a else b

/-- `reqArgs[i]`: the element, `undefined` past the end. -/
def elementAt (reqArgs : List JSValue) (i : Nat) : JSValue :=
  reqArgs.getD i JSValue.undefined

/-- `reqArgs[i] = v` on an array: overwrites an element, or extends the array, filling any
gap with `undefined` (a hole reads as `undefined`). -/
def assignAt (reqArgs : List JSValue) (i : Nat) (v : JSValue) : List JSValue :=
  if i < reqArgs.length then reqArgs.set i v
  else reqArgs ++ List.replicate (i - reqArgs.length) JSValue.undefined ++ [v]

/-- Property lookup `obj.name` on a parsed JSON object: the last member of that name wins,
`undefined` when there is none. -/
def getMember (members : List (JSString × JSValue)) (name : JSString) : JSValue :=
  match members.reverse.find? (fun m => m.1 = name) with
  | some m => m.2
  | none => JSValue.undefined

/-! ## Regular expressions -/

/-- Regular expression syntax, as far as the two patterns of the script need it. -/
inductive Pattern where
  | never
  | empty
  | cls (p : Char → Bool)
  | seq (r q : Pattern)
  | alt (r q : Pattern)
  | star (r : Pattern)

namespace Pattern

/-- One literal character. -/
def char (c : Char) : Pattern := cls (fun x => x == c)

/-- Negated class `[^c]`, which also matches line terminators. -/
def notChar (c : Char) : Pattern := cls (fun x => x != c)

/-- Line terminators of the regular expression grammar. -/
def isLineTerminator (c : Char) : Bool :=
  c == '\n' || c == '\r' || c.toNat == 0x2028 || c.toNat == 0x2029

/-- The atom `.`: any character except a line terminator. -/
def dot : Pattern := cls (fun x => !isLineTerminator x)

/-- The quantifier `+`. -/
def plus (r : Pattern) : Pattern := seq r (star r)

/-- The quantifier `?`. -/
def opt (r : Pattern) : Pattern := alt r empty

/-- A literal word. -/
def word : List Char → Pattern
  | [] => empty
  | c :: cs => seq (char c) (word cs)

/-- Whether the pattern matches the empty string. -/
def nullable : Pattern → Bool
  | never => false
  | empty => true
  | cls _ => false
  | seq r q => nullable r && nullable q
  | alt r q => nullable r || nullable q
  | star _ => true

/-- The pattern for what may follow after the character `c` has been read. -/
def deriv : Pattern → Char → Pattern
  | never, _ => never
  | empty, _ => never
  | cls p, c => if p c then empty else never
  | seq r q, c =>
    if nullable r then alt (seq (deriv r c) q) (deriv q c) else seq (deriv r c) q
  | alt r q, c => alt (deriv r c) (deriv q c)
  | star r, c => seq (deriv r c) (star r)

/-- Whether the whole string matches the pattern. -/
def fullMatch : Pattern → JSString → Bool
  | r, [] => nullable r
  | r, c :: cs => fullMatch (deriv r c) cs

/-- `/^r$/.test(v)` for a pattern anchored at both ends and without the `m` flag: the
argument is converted to a string, which must match as a whole; `none` when the conversion
throws. -/
def test (r : Pattern) (v : JSValue) : Option Bool :=
  v.toJSString.map (fullMatch r)

end Pattern

/-- The pattern `/^[^:]+:.+$/` of `toMasterKeyReference`. -/
def keyPattern : Pattern :=
  .seq (.plus (.notChar ':')) (.seq (.char ':') (.plus .dot))

/-- The pattern `/^(in)?active$/` of the `listEncryptionKeys` case. -/
def modePattern : Pattern :=
  .seq (.opt (.word "in".toList)) (.word "active".toList)

/-! ## Root objects of the web script and the Java beans -/

/-- Status constants of the `status` root object that the script uses. -/
inductive StatusCode where
  | STATUS_BAD_REQUEST
  | STATUS_NOT_FOUND
deriving DecidableEq, Repr

/-- What `status.setCode(code, message)` stores. -/
structure Status where
  code : StatusCode
  message : String
deriving DecidableEq, Repr

/-- The Java value object `MasterKeyReference(keystoreId, alias)`: the two constructor
arguments (`alias` is a reserved word here, hence `aliasName`). -/
structure MasterKeyReference where
  keystoreId : JSString
  aliasName : JSString
deriving DecidableEq, Repr

/-- The `model` root object: the properties the script assigns, `none` while unassigned.
`V` is the type of the Java values handed through from the beans. -/
structure Model (V : Type) where
  command : Option JSString
  keys : Option V
  key : Option MasterKeyReference
  symmetricKeyCount : Option V
  symmetricKeyCounts : Option V

/-- Calls the script makes on the application context and on the two beans. -/
inductive Call where
  | getMasterKeyManager
  | getEncryptingContentStoreManager
  | activeKeys
  | disabledKeys
  | keysRequiringReEncryption
  | enable (key : MasterKeyReference)
  | disable (key : MasterKeyReference)
  | countEncryptedSymmetricKeys (key : Option MasterKeyReference)
  | reEncryptSymmetricKeys (key : MasterKeyReference)
deriving DecidableEq, Repr

/-- Whether a call is one of the core operations `enable`, `disable`,
`countEncryptedSymmetricKeys` and `reEncryptSymmetricKeys`. -/
def Call.isKeyOperation : Call → Bool
  | .enable _ => true
  | .disable _ => true
  | .countEncryptedSymmetricKeys _ => true
  | .reEncryptSymmetricKeys _ => true
  | _ => false

/-- Whether a call goes to one of the two beans (anything but a bean lookup). -/
def Call.isBeanOperation : Call → Bool
  | .getMasterKeyManager => false
  | .getEncryptingContentStoreManager => false
  | _ => true

/-- The Java beans behind the script, `MasterKeyManager` and `EncryptingContentStoreManager`,
as far as the script calls them. `σ` is their state, `ε` the exceptions they throw, `V` the
values they return. A call either throws or returns. -/
structure Core (σ ε V : Type) where
  activeKeys : σ → Except ε V
  disabledKeys : σ → Except ε V
  keysRequiringReEncryption : σ → Except ε V
  enable : MasterKeyReference → σ → Except ε σ
  disable : MasterKeyReference → σ → Except ε σ
  countEncryptedSymmetricKeys : Option MasterKeyReference → σ → Except ε V
  reEncryptSymmetricKeys : MasterKeyReference → σ → Except ε σ

/-- What ends a run before the end of the script: a TypeError raised by a string conversion,
or an exception thrown by a bean. -/
inductive Thrown (ε : Type) where
  | typeError
  | java (e : ε)
deriving DecidableEq, Repr

/-- State of one run of the script: the `status` set so far, the `model`, the calls made so
far in order, the state of the beans, and what ended the run early, if anything did. -/
structure Run (σ ε V : Type) where
  status : Option Status
  model : Model V
  calls : List Call
  core : σ
  thrown : Option (Thrown ε)

namespace Run

variable {σ ε V : Type}

/-- State at the start of a run: nothing set, nothing called. -/
def start (w : σ) : Run σ ε V :=
  { status := none
    model := { command := none, keys := none, key := none, symmetricKeyCount := none,
               symmetricKeyCounts := none }
    calls := []
    core := w
    thrown := none }

/-- `status.setCode(code, message)`. -/
def setCode (r : Run σ ε V) (code : StatusCode) (message : String) : Run σ ε V :=
  { r with status := some { code := code, message := message } }

/-- A string conversion throws: the run ends with a TypeError. -/
def throwTypeError (r : Run σ ε V) : Run σ ε V :=
  { r with thrown := some .typeError }

/-- Appends a call to the record of calls. -/
def invoke (r : Run σ ε V) (c : Call) : Run σ ε V :=
  { r with calls := r.calls ++ [c] }

/-- A bean call that changes the state of the beans: the call is recorded; when it throws,
the run ends with that exception, otherwise `next` continues from the new state. -/
def update (r : Run σ ε V) (c : Call) (op : σ → Except ε σ)
    (next : Run σ ε V → Run σ ε V) : Run σ ε V :=
  match op r.core with
  | .error e => { r.invoke c with thrown := some (.java e) }
  | .ok w => next { r.invoke c with core := w }

/-- A bean call that returns a value: the call is recorded; when it throws, the run ends
with that exception, otherwise `next` continues with the value. -/
def query (r : Run σ ε V) (c : Call) (op : σ → Except ε V)
    (next : V → Run σ ε V → Run σ ε V) : Run σ ε V :=
  match op r.core with
  | .error e => { r.invoke c with thrown := some (.java e) }
  | .ok v => next v (r.invoke c)

end Run

/-! ## The script -/

section Script

variable {σ ε V : Type}

/-- Lines 21-28, `getMasterKeyManager()`: a bean lookup in the application context. -/
def getMasterKeyManager (r : Run σ ε V) : Run σ ε V :=
  r.invoke .getMasterKeyManager

/-- Lines 30-37, `getEncryptingContentStoreManager()`: a bean lookup. -/
def getEncryptingContentStoreManager (r : Run σ ε V) : Run σ ε V :=
  r.invoke .getEncryptingContentStoreManager

/-- Lines 39-57, `toMasterKeyReference(key)`: the reference, or `none` when the function
returns `undefined` after setting bad-request or when a string conversion of `key` throws;
in the latter case the run it returns has ended with a TypeError, and none of the three
callers does anything after the call but on a reference. -/
def toMasterKeyReference (key : JSValue) (r : Run σ ε V) :
    Option MasterKeyReference × Run σ ε V :=
  match keyPattern.test key with
  | none => (none, r.throwTypeError)
  | some matched =>
    if !matched then
      (none, r.setCode .STATUS_BAD_REQUEST
        "A master key must be specified using the identifer pattern \"<keystoreId>:<alias>\"")
    else
      let r := getMasterKeyManager r
      match key.toJSString with
      | none => (none, r.throwTypeError)
      | some key =>
        let sepIdx := indexOf key ':'
        let keystoreId := substring key 0 sepIdx
        let aliasName := substringFrom key (sepIdx + 1)
        (some { keystoreId := keystoreId, aliasName := aliasName }, r)

/-- Lines 59-84, `keyEnablement(reqArgs, enable)`. -/
def keyEnablement (core : Core σ ε V) (reqArgs : List JSValue) (enable : Bool)
    (r : Run σ ε V) : Run σ ε V :=
  if reqArgs.length = 0 then
    r.setCode .STATUS_BAD_REQUEST "A master key must be specified"
  else
    match toMasterKeyReference (elementAt reqArgs 0) r with
    | (none, r) => r
    | (some key, r) =>
      let r := getMasterKeyManager r
      let assignKey := fun (r : Run σ ε V) => { r with model := { r.model with key := some key } }
      if enable then
        r.update (.enable key) (core.enable key) assignKey
      else
        r.update (.disable key) (core.disable key) assignKey

/-- Lines 86-104, `countSymmetricKeys(reqArgs)`. -/
def countSymmetricKeys (core : Core σ ε V) (reqArgs : List JSValue)
    (r : Run σ ε V) : Run σ ε V :=
  let r := getMasterKeyManager r
  if reqArgs.length = 0 then
    r.query (.countEncryptedSymmetricKeys none) (core.countEncryptedSymmetricKeys none)
      (fun v r => { r with model := { r.model with symmetricKeyCounts := some v } })
  else
    match toMasterKeyReference (elementAt reqArgs 0) r with
    | (none, r) => r
    | (some key, r) =>
      r.query (.countEncryptedSymmetricKeys (some key))
        (core.countEncryptedSymmetricKeys (some key))
        (fun v r => { r with model := { r.model with symmetricKeyCount := some v,
                                                       key := some key } })

/-- Lines 106-124, `reEncryptSymmetricKeys(reqArgs)`. -/
def reEncryptSymmetricKeys (core : Core σ ε V) (reqArgs : List JSValue)
    (r : Run σ ε V) : Run σ ε V :=
  if reqArgs.length = 0 then
    r.setCode .STATUS_BAD_REQUEST "A master key must be specified"
  else
    match toMasterKeyReference (elementAt reqArgs 0) r with
    | (none, r) => r
    | (some key, r) =>
      let r := getEncryptingContentStoreManager r
      r.update (.reEncryptSymmetricKeys key) (core.reEncryptSymmetricKeys key)
        (fun r => { r with model := { r.model with key := some key } })

/-- Line 131: the command is the part of the service URL after its last slash. -/
def commandOf (service : JSString) : JSString :=
  substringFrom service (lastIndexOf service '/' + 1)

/-- Lines 135-142: `reqArgs` is filled index by index from `reqBody.arguments` when that is
an array, and stays empty otherwise. -/
def requestArguments (reqBody : List (JSString × JSValue)) : List JSValue :=
  let arguments := getMember reqBody "arguments".toList
  if arguments.truthy && arguments.isArray then
    match arguments with
    | .array items =>
      (List.range items.length).foldl
        (fun reqArgs argIdx => assignAt reqArgs argIdx (elementAt items argIdx)) []
    | _ => []
  else []

/-- Lines 126-178, `main()`, for the service URL `url.service` and the members of the JSON
object `json` of the request. -/
def main (core : Core σ ε V) (service : JSString) (reqBody : List (JSString × JSValue))
    (w : σ) : Run σ ε V :=
  let r : Run σ ε V := Run.start w
  let command := commandOf service
  let r := { r with model := { r.model with command := some command } }
  let reqArgs := requestArguments reqBody
  if command = "help".toList then
    r
  else if command = "listEncryptionKeys".toList then
    let badMode : Option Bool :=
      if reqArgs.length ≥ 1 then (modePattern.test (elementAt reqArgs 0)).map (fun m => !m)
      else some false
    match badMode with
    | none => r.throwTypeError
    | some true =>
      r.setCode .STATUS_BAD_REQUEST "Mode parameter may only be \"active\" or \"inactive\""
    | some false =>
      let r := getMasterKeyManager r
      let assignKeys := fun (v : V) (r : Run σ ε V) =>
        { r with model := { r.model with keys := some v } }
      match ((elementAt reqArgs 0).or (.string "active".toList)).toJSString with
      | none => r.throwTypeError
      | some mode =>
        if mode = "active".toList then
          r.query .activeKeys core.activeKeys assignKeys
        else
          r.query .disabledKeys core.disabledKeys assignKeys
  else if command = "enableEncryptionKey".toList then
    keyEnablement core reqArgs true r
  else if command = "disableEncryptionKey".toList then
    keyEnablement core reqArgs false r
  else if command = "countEncryptedSymmetricKeys".toList then
    countSymmetricKeys core reqArgs r
  else if command = "listEncryptionKeysEligibleForReEncryption".toList then
    let r := getMasterKeyManager r
    r.query .keysRequiringReEncryption core.keysRequiringReEncryption
      (fun v r => { r with model := { r.model with keys := some v } })
  else if command = "reEncryptSymmetricKeys".toList then
    reEncryptSymmetricKeys core reqArgs r
  else
    r.setCode .STATUS_NOT_FOUND "Command not found"

end Script

/-! ## The core behind the commands, after the specification

The Java classes of the master key manager and of the encrypting content store manager are
not among the sources of the script. The registry below follows sections 3 and 4 of the
specification, for one caller at a time, and serves as a concrete `Core` to run the script
against. -/

/-- Modelled from the spec: the error kinds of the core that section 7 names for the
registry operations (the Java exception classes are missing). -/
inductive CoreError where
  | UnknownMasterKey
  | CannotDisableLastActiveKey
deriving DecidableEq, Repr

/-- Modelled from the spec: the results of the core operations of section 6, a sequence of
master key references or an integer count (the Java return types are missing). -/
inductive CoreValue where
  | keys (refs : List MasterKeyReference)
  | count (n : Nat)
deriving DecidableEq, Repr

/-- Modelled from the spec: a MasterKeyRecord of section 3, without its timestamps (the Java
class is missing). -/
structure MasterKeyRecord where
  reference : MasterKeyReference
  active : Bool
deriving DecidableEq, Repr

/-- Modelled from the spec: the state of the core, the registry records in order of
activation and the master key reference of every envelope (the Java classes are missing). -/
structure Registry where
  records : List MasterKeyRecord
  envelopes : List MasterKeyReference
deriving DecidableEq, Repr

namespace Registry

/-- Modelled from the spec: whether a reference is registered (section 4.1; the Java class
MasterKeyManager is missing). -/
def knows (g : Registry) (ref : MasterKeyReference) : Bool :=
  g.records.any (fun m => m.reference = ref)

/-- Modelled from the spec: `listActive()` of section 4.1 (the Java class MasterKeyManager is
missing). -/
def listActive (g : Registry) : List MasterKeyReference :=
  (g.records.filter (fun m => m.active)).map (fun m => m.reference)

/-- Modelled from the spec: `listDisabled()` of section 4.1 (the Java class MasterKeyManager
is missing). -/
def listDisabled (g : Registry) : List MasterKeyReference :=
  (g.records.filter (fun m => !m.active)).map (fun m => m.reference)

/-- Modelled from the spec: sets the state of the record of a reference (section 4.1; the
Java class MasterKeyManager is missing). -/
def setActive (g : Registry) (ref : MasterKeyReference) (active : Bool) : Registry :=
  let change := fun (m : MasterKeyRecord) =>
    if m.reference = ref then { m with active := active } else m
  { g with records := g.records.map change }

/-- Modelled from the spec: `enable(ref)` of section 4.1, which fails with UnknownMasterKey
for a reference that is not registered (the Java class MasterKeyManager is missing). -/
def enable (ref : MasterKeyReference) (g : Registry) : Except CoreError Registry :=
  if g.knows ref then .ok (g.setActive ref true) else .error .UnknownMasterKey

/-- Modelled from the spec: `disable(ref)` of section 4.1, which fails with
CannotDisableLastActiveKey for the only Active record, is idempotent on a Disabled one and
fails with UnknownMasterKey otherwise (the Java class MasterKeyManager is missing). -/
def disable (ref : MasterKeyReference) (g : Registry) : Except CoreError Registry :=
  if g.listActive = [ref] then .error .CannotDisableLastActiveKey
  else if g.knows ref then .ok (g.setActive ref false)
  else .error .UnknownMasterKey

/-- Modelled from the spec: `countEncryptedSymmetricKeys(ref?)` of section 4.3, all envelopes
without an argument and the envelopes of one master key with one (the Java class
MasterKeyManager is missing). -/
def countEncryptedSymmetricKeys (ref : Option MasterKeyReference) (g : Registry) : Nat :=
  match ref with
  | none => g.envelopes.length
  | some k => g.envelopes.count k

/-- Modelled from the spec: `keysRequiringReEncryption()` of section 4.3, the Disabled
records with a non-zero count (the Java class MasterKeyManager is missing). -/
def keysRequiringReEncryption (g : Registry) : List MasterKeyReference :=
  g.listDisabled.filter (fun k => 0 < g.envelopes.count k)

/-- Modelled from the spec: `reEncryptSymmetricKeys(sourceRef)` of section 4.4 run to
completion, every envelope of the source key moved to the first Active key (the Java class
EncryptingContentStoreManager is missing). -/
def reEncryptSymmetricKeys (ref : MasterKeyReference) (g : Registry) :
    Except CoreError Registry :=
  if g.knows ref then
    match g.listActive with
    | [] => .ok g
    | target :: _ =>
      .ok { g with envelopes := g.envelopes.map (fun k => if k = ref then target else k) }
  else .error .UnknownMasterKey

end Registry

/-- Modelled from the spec: the core operations of sections 4.1, 4.3 and 4.4 behind the
names the script calls (the Java classes MasterKeyManager and EncryptingContentStoreManager
are missing). -/
def specCore : Core Registry CoreError CoreValue where
  activeKeys := fun g => .ok (.keys g.listActive)
  disabledKeys := fun g => .ok (.keys g.listDisabled)
  keysRequiringReEncryption := fun g => .ok (.keys g.keysRequiringReEncryption)
  enable := Registry.enable
  disable := Registry.disable
  countEncryptedSymmetricKeys := fun ref g => .ok (.count (g.countEncryptedSymmetricKeys ref))
  reEncryptSymmetricKeys := Registry.reEncryptSymmetricKeys

/-- Reference with the given keystore id and alias. -/
def mkRef (keystoreId aliasName : String) : MasterKeyReference :=
  { keystoreId := keystoreId.toList, aliasName := aliasName.toList }

/-- A registry with the Active keys `ks:a` and `ks:b`, the Disabled key `ks:old` and three
envelopes, two of them under the Disabled key. -/
def sampleRegistry : Registry :=
  { records := [{ reference := mkRef "ks" "old", active := false },
                { reference := mkRef "ks" "a", active := true },
                { reference := mkRef "ks" "b", active := true }]
    envelopes := [mkRef "ks" "old", mkRef "ks" "a", mkRef "ks" "old"] }

/-- A registry whose only key is the Active key `ks:a`, with one envelope under it. -/
def soleKeyRegistry : Registry :=
  { records := [{ reference := mkRef "ks" "a", active := true }]
    envelopes := [mkRef "ks" "a"] }

/-- A service URL whose last segment is the given command. -/
def serviceOf (command : String) : JSString :=
  "/service/path/".toList ++ command.toList

/-- A request body `{"arguments": [...]}` whose arguments are the given strings. -/
def bodyOf (arguments : List String) : List (JSString × JSValue) :=
  [("arguments".toList, JSValue.array (arguments.map (fun a => JSValue.string a.toList)))]

/-! ## Notions the statements below use -/

namespace Pattern

/-- The strings a pattern matches, by the structure of the pattern. -/
inductive Matches : Pattern → JSString → Prop
  | empty : Matches .empty []
  | cls {p : Char → Bool} {c : Char} : p c = true → Matches (.cls p) [c]
  | seq {r q : Pattern} {a b : JSString} :
      Matches r a → Matches q b → Matches (.seq r q) (a ++ b)
  | altLeft {r q : Pattern} {a : JSString} : Matches r a → Matches (.alt r q) a
  | altRight {r q : Pattern} {a : JSString} : Matches q a → Matches (.alt r q) a
  | starNil {r : Pattern} : Matches (.star r) []
  | starCons {r : Pattern} {a b : JSString} :
      Matches r a → Matches (.star r) b → Matches (.star r) (a ++ b)

end Pattern

/-- The part of an identifier before its first colon (all of it when it has none). -/
def partBefore (k : JSString) : JSString :=
  k.takeWhile (fun c => c != ':')

/-- The part of an identifier after its first colon (empty when it has none). -/
def partAfter (k : JSString) : JSString :=
  (k.dropWhile (fun c => c != ':')).drop 1

/-- The key identifier format in the words of the specification: exactly one colon, a
non-empty part before it and a non-empty part after it. -/
def exactlyOneSeparator (k : JSString) : Bool :=
  k.count ':' == 1 && !(partBefore k).isEmpty && !(partAfter k).isEmpty

/-- The key identifier format that the pattern of `toMasterKeyReference` fixes: a colon, a
non-empty part before the first colon, and a non-empty part after it that has no line
terminator. -/
def WellFormedKey (k : JSString) : Prop :=
  ':' ∈ k ∧ partBefore k ≠ [] ∧ partAfter k ≠ [] ∧
    ∀ c ∈ partAfter k, Pattern.isLineTerminator c = false

instance (k : JSString) : Decidable (WellFormedKey k) := by
  unfold WellFormedKey
  infer_instance

/-- The command names that `main` knows. -/
def knownCommands : List JSString :=
  ["help".toList, "listEncryptionKeys".toList, "enableEncryptionKey".toList,
   "disableEncryptionKey".toList, "countEncryptedSymmetricKeys".toList,
   "listEncryptionKeysEligibleForReEncryption".toList, "reEncryptSymmetricKeys".toList]

/-- The bean operations among the calls of a run, in order. -/
def beanOperations {σ ε V : Type} (r : Run σ ε V) : List Call :=
  r.calls.filter Call.isBeanOperation

/-- The state in which `main` reaches its `switch`: `model.command` is set, nothing else. -/
def entry {σ ε V : Type} (w : σ) (command : JSString) : Run σ ε V :=
  { status := none
    model := { command := some command, keys := none, key := none, symmetricKeyCount := none,
               symmetricKeyCounts := none }
    calls := []
    core := w
    thrown := none }

/-- The status code of a run, if one was set. -/
def statusCode {σ ε V : Type} (r : Run σ ε V) : Option StatusCode :=
  r.status.map (fun st => st.code)

/-! ## What the patterns match -/

namespace Pattern

theorem nullable_iff (r : Pattern) : nullable r = true ↔ Matches r [] := by
  induction r with
  | never => simp only [nullable]; constructor
             · intro h; cases h
             · intro h; cases h
  | empty => simp only [nullable]; exact ⟨fun _ => .empty, fun _ => trivial⟩
  | cls p => simp only [nullable]; constructor
             · intro h; cases h
             · intro h; cases h
  | seq r q ihr ihq =>
    simp only [nullable, Bool.and_eq_true, ihr, ihq]
    constructor
    · rintro ⟨h1, h2⟩
      exact Matches.seq h1 h2
    · intro h
      generalize hx : ([] : JSString) = x at h
      cases h with
      | @seq _ _ a b h1 h2 =>
        have hab := List.append_eq_nil.mp hx.symm
        obtain ⟨ha, hb⟩ := hab
        subst ha; subst hb
        exact ⟨h1, h2⟩
  | alt r q ihr ihq =>
    simp only [nullable, Bool.or_eq_true, ihr, ihq]
    constructor
    · rintro (h | h)
      · exact .altLeft h
      · exact .altRight h
    · intro h
      cases h with
      | altLeft h => exact Or.inl h
      | altRight h => exact Or.inr h
  | star r _ => simp only [nullable]; exact ⟨fun _ => .starNil, fun _ => trivial⟩

/-- A non-empty match of a sequence splits either inside the first part or, the first part
matching the empty string, inside the second. -/
theorem matches_seq_cons {r q : Pattern} {c : Char} {s : JSString}
    (h : Matches (.seq r q) (c :: s)) :
    (∃ a b, s = a ++ b ∧ Matches r (c :: a) ∧ Matches q b) ∨
      (Matches r [] ∧ Matches q (c :: s)) := by
  generalize hx : c :: s = x at h
  cases h with
  | @seq _ _ a b h1 h2 =>
    cases a with
    | nil =>
      right
      simp only [List.nil_append] at hx
      subst hx
      exact ⟨h1, h2⟩
    | cons d a =>
      left
      simp only [List.cons_append, List.cons.injEq] at hx
      obtain ⟨hd, hs⟩ := hx
      subst hd; subst hs
      exact ⟨a, b, rfl, h1, h2⟩

/-- A non-empty match of a repetition starts with a non-empty match of its body. -/
theorem matches_star_cons {r : Pattern} {c : Char} {s : JSString}
    (h : Matches (.star r) (c :: s)) :
    ∃ a b, s = a ++ b ∧ Matches r (c :: a) ∧ Matches (.star r) b := by
  generalize hp : Pattern.star r = p at h
  generalize hx : c :: s = x at h
  induction h with
  | empty => cases hp
  | cls _ => cases hp
  | seq _ _ => cases hp
  | altLeft _ => cases hp
  | altRight _ => cases hp
  | starNil => cases hx
  | @starCons r0 a b h1 h2 _ ih2 =>
    cases hp
    cases a with
    | nil =>
      simp only [List.nil_append] at hx
      exact ih2 rfl hx
    | cons d a =>
      simp only [List.cons_append, List.cons.injEq] at hx
      obtain ⟨hd, hs⟩ := hx
      subst hd; subst hs
      exact ⟨a, b, rfl, h1, h2⟩

theorem deriv_iff (r : Pattern) (c : Char) (s : JSString) :
    Matches (deriv r c) s ↔ Matches r (c :: s) := by
  induction r generalizing s with
  | never => simp only [deriv]; constructor
             · intro h; cases h
             · intro h; cases h
  | empty => simp only [deriv]; constructor
             · intro h; cases h
             · intro h; cases h
  | cls p =>
    simp only [deriv]
    constructor
    · intro h
      split at h
      · rename_i hp
        cases h
        exact .cls hp
      · cases h
    · intro h
      cases h with
      | cls hp => simp only [hp, if_true]; exact .empty
  | seq r q ihr ihq =>
    constructor
    · intro h
      simp only [deriv] at h
      split at h
      · rename_i hn
        cases h with
        | altLeft h =>
          cases h with
          | seq h1 h2 =>
            have := Matches.seq ((ihr _).mp h1) h2
            simpa using this
        | altRight h =>
          have := Matches.seq ((nullable_iff r).mp hn) ((ihq _).mp h)
          simpa using this
      · cases h with
        | seq h1 h2 =>
          have := Matches.seq ((ihr _).mp h1) h2
          simpa using this
    · intro h
      simp only [deriv]
      rcases matches_seq_cons h with ⟨a, b, hs, h1, h2⟩ | ⟨h1, h2⟩
      · subst hs
        have h3 := Matches.seq ((ihr _).mpr h1) h2
        split
        · exact .altLeft h3
        · exact h3
      · have hn := (nullable_iff r).mpr h1
        simp only [hn, if_true]
        exact .altRight ((ihq _).mpr h2)
  | alt r q ihr ihq =>
    simp only [deriv]
    constructor
    · intro h
      cases h with
      | altLeft h => exact .altLeft ((ihr _).mp h)
      | altRight h => exact .altRight ((ihq _).mp h)
    · intro h
      cases h with
      | altLeft h => exact .altLeft ((ihr _).mpr h)
      | altRight h => exact .altRight ((ihq _).mpr h)
  | star r ih =>
    simp only [deriv]
    constructor
    · intro h
      cases h with
      | seq h1 h2 =>
        have := Matches.starCons ((ih _).mp h1) h2
        simpa using this
    · intro h
      obtain ⟨a, b, hs, h1, h2⟩ := matches_star_cons h
      subst hs
      exact .seq ((ih _).mpr h1) h2

/-- The derivative matcher decides the strings of the pattern. -/
theorem fullMatch_iff (r : Pattern) (s : JSString) :
    fullMatch r s = true ↔ Matches r s := by
  induction s generalizing r with
  | nil => simpa only [fullMatch] using nullable_iff r
  | cons c s ih => simp only [fullMatch, ih, deriv_iff]

theorem matches_cls_iff (p : Char → Bool) (s : JSString) :
    Matches (.cls p) s ↔ ∃ c, s = [c] ∧ p c = true := by
  constructor
  · intro h
    cases h with
    | @cls _ c hp => exact ⟨c, rfl, hp⟩
  · rintro ⟨c, rfl, hp⟩
    exact .cls hp

theorem matches_star_cls_iff (p : Char → Bool) (s : JSString) :
    Matches (.star (.cls p)) s ↔ ∀ c ∈ s, p c = true := by
  induction s with
  | nil => exact Iff.intro (fun _ c hc => absurd hc (List.not_mem_nil c)) (fun _ => .starNil)
  | cons d s ih =>
    constructor
    · intro h
      obtain ⟨a, b, hs, h1, h2⟩ := matches_star_cons h
      obtain ⟨c, hc, hp⟩ := (matches_cls_iff p _).mp h1
      simp only [List.cons.injEq] at hc
      obtain ⟨hd, ha⟩ := hc
      subst hd; subst ha
      simp only [List.nil_append] at hs
      subst hs
      intro c hc
      rcases List.mem_cons.mp hc with rfl | hc
      · exact hp
      · exact ih.mp h2 c hc
    · intro h
      have h1 : Matches (.cls p) [d] := .cls (h d (List.mem_cons_self d s))
      have h2 : Matches (.star (.cls p)) s :=
        ih.mpr (fun c hc => h c (List.mem_cons_of_mem d hc))
      exact Matches.starCons h1 h2

theorem matches_plus_cls_iff (p : Char → Bool) (s : JSString) :
    Matches (plus (.cls p)) s ↔ s ≠ [] ∧ ∀ c ∈ s, p c = true := by
  unfold plus
  constructor
  · intro h
    cases h with
    | @seq _ _ a b h1 h2 =>
      obtain ⟨c, rfl, hp⟩ := (matches_cls_iff p _).mp h1
      refine ⟨by simp, ?_⟩
      intro x hx
      rcases List.mem_append.mp hx with hx | hx
      · rw [List.mem_singleton.mp hx]; exact hp
      · exact (matches_star_cls_iff p b).mp h2 x hx
  · rintro ⟨hne, h⟩
    cases s with
    | nil => exact absurd rfl hne
    | cons d s =>
      have h1 : Matches (.cls p) [d] := .cls (h d (List.mem_cons_self d s))
      have h2 : Matches (.star (.cls p)) s :=
        (matches_star_cls_iff p s).mpr (fun c hc => h c (List.mem_cons_of_mem d hc))
      exact Matches.seq h1 h2

theorem matches_char_iff (c : Char) (s : JSString) : Matches (char c) s ↔ s = [c] := by
  unfold char
  rw [matches_cls_iff]
  constructor
  · rintro ⟨x, rfl, hx⟩
    simp only [beq_iff_eq] at hx
    rw [hx]
  · rintro rfl
    exact ⟨c, rfl, by simp⟩

theorem matches_word_iff (w s : JSString) : Matches (word w) s ↔ s = w := by
  induction w generalizing s with
  | nil =>
    simp only [word]
    constructor
    · intro h; cases h; rfl
    · rintro rfl; exact .empty
  | cons c w ih =>
    simp only [word]
    constructor
    · intro h
      cases h with
      | @seq _ _ a b h1 h2 =>
        rw [(matches_char_iff c a).mp h1, (ih b).mp h2]
        rfl
    · rintro rfl
      exact Matches.seq ((matches_char_iff c [c]).mpr rfl) ((ih w).mpr rfl)

end Pattern

/-- What `/^[^:]+:.+$/` accepts: a non-empty part without a colon, a colon, and a non-empty
part without a line terminator. -/
theorem keyPattern_fullMatch_iff (k : JSString) :
    keyPattern.fullMatch k = true ↔
      ∃ a b, k = a ++ ':' :: b ∧ a ≠ [] ∧ (∀ c ∈ a, c ≠ ':') ∧ b ≠ [] ∧
        ∀ c ∈ b, Pattern.isLineTerminator c = false := by
  rw [Pattern.fullMatch_iff]
  unfold keyPattern
  constructor
  · intro h
    cases h with
    | @seq _ _ a rest h1 h2 =>
      cases h2 with
      | @seq _ _ m b h3 h4 =>
        have hm := (Pattern.matches_char_iff ':' m).mp h3
        subst hm
        obtain ⟨ha, hca⟩ := (Pattern.matches_plus_cls_iff _ a).mp h1
        obtain ⟨hb, hcb⟩ := (Pattern.matches_plus_cls_iff _ b).mp h4
        refine ⟨a, b, rfl, ha, ?_, hb, ?_⟩
        · intro c hc
          have := hca c hc
          simpa using this
        · intro c hc
          have := hcb c hc
          simpa using this
  · rintro ⟨a, b, rfl, ha, hca, hb, hcb⟩
    have h1 : Pattern.Matches (Pattern.plus (Pattern.notChar ':')) a :=
      (Pattern.matches_plus_cls_iff _ a).mpr ⟨ha, fun c hc => by simpa using hca c hc⟩
    have h3 : Pattern.Matches (Pattern.char ':') [':'] :=
      (Pattern.matches_char_iff ':' _).mpr rfl
    have h4 : Pattern.Matches (Pattern.plus Pattern.dot) b :=
      (Pattern.matches_plus_cls_iff _ b).mpr ⟨hb, fun c hc => by simpa using hcb c hc⟩
    exact Pattern.Matches.seq h1 (Pattern.Matches.seq h3 h4)

/-- What `/^(in)?active$/` accepts: the two words, nothing else. -/
theorem modePattern_fullMatch_iff (k : JSString) :
    modePattern.fullMatch k = true ↔ k = "active".toList ∨ k = "inactive".toList := by
  rw [Pattern.fullMatch_iff]
  unfold modePattern Pattern.opt
  constructor
  · intro h
    cases h with
    | @seq _ _ a b h1 h2 =>
      have hb := (Pattern.matches_word_iff _ b).mp h2
      subst hb
      cases h1 with
      | altLeft h =>
        have ha := (Pattern.matches_word_iff _ a).mp h
        subst ha
        right; rfl
      | altRight h =>
        cases h
        left; rfl
  · rintro (rfl | rfl)
    · exact Pattern.Matches.seq (a := [])
        (.altRight .empty) ((Pattern.matches_word_iff _ _).mpr rfl)
    · exact Pattern.Matches.seq (a := "in".toList)
        (.altLeft ((Pattern.matches_word_iff _ _).mpr rfl))
        ((Pattern.matches_word_iff _ _).mpr rfl)

/-! ## String operations -/

theorem indexOf_first (a b : JSString) (x : Char) (ha : ∀ c ∈ a, c ≠ x) :
    indexOf (a ++ x :: b) x = a.length := by
  induction a with
  | nil => simp [indexOf]
  | cons d a ih =>
    have hd : d ≠ x := ha d (List.mem_cons_self d a)
    have hr := ih (fun c hc => ha c (List.mem_cons_of_mem d hc))
    have hn : ¬ ((a.length : Int) < 0) := by omega
    simp [indexOf, hd, hr, hn]

theorem indexOf_absent (s : JSString) (x : Char) (hs : ∀ c ∈ s, c ≠ x) :
    indexOf s x = -1 := by
  induction s with
  | nil => rfl
  | cons d s ih =>
    have hd : d ≠ x := hs d (List.mem_cons_self d s)
    have hr := ih (fun c hc => hs c (List.mem_cons_of_mem d hc))
    simp [indexOf, hd, hr]

theorem lastIndexOf_absent (s : JSString) (x : Char) (hs : ∀ c ∈ s, c ≠ x) :
    lastIndexOf s x = -1 := by
  induction s with
  | nil => rfl
  | cons d s ih =>
    have hd : d ≠ x := hs d (List.mem_cons_self d s)
    have hr := ih (fun c hc => hs c (List.mem_cons_of_mem d hc))
    simp [lastIndexOf, hd, hr]

theorem lastIndexOf_last (a b : JSString) (x : Char) (hb : ∀ c ∈ b, c ≠ x) :
    lastIndexOf (a ++ x :: b) x = a.length := by
  induction a with
  | nil => simp [lastIndexOf, lastIndexOf_absent b x hb]
  | cons d a ih =>
    have hn : (0 : Int) ≤ (a.length : Int) := by omega
    simp [lastIndexOf, ih, hn]

theorem substring_of_le (s : JSString) (i j : Nat) (hij : i ≤ j) (hj : j ≤ s.length) :
    substring s i j = (s.drop i).take (j - i) := by
  unfold substring
  have h1 : min (max (i : Int) 0) (s.length : Int) = i := by omega
  have h2 : min (max (j : Int) 0) (s.length : Int) = j := by omega
  simp only [h1, h2]
  have h3 : min (i : Int) (j : Int) = i := by omega
  have h4 : max (i : Int) (j : Int) = j := by omega
  simp only [h3, h4]
  have h5 : ((j : Int) - (i : Int)).toNat = j - i := by omega
  rw [h5, Int.toNat_ofNat]

theorem substring_before (a b : JSString) (x : Char) :
    substring (a ++ x :: b) 0 (a.length : Int) = a := by
  have h := substring_of_le (a ++ x :: b) 0 a.length (Nat.zero_le _) (by simp)
  simp only [Nat.cast_zero] at h
  rw [h]
  simp

theorem substringFrom_after (a b : JSString) (x : Char) :
    substringFrom (a ++ x :: b) ((a.length : Int) + 1) = b := by
  unfold substringFrom
  have h := substring_of_le (a ++ x :: b) (a.length + 1) (a ++ x :: b).length (by simp) le_rfl
  have hc : (((a.length + 1 : Nat)) : Int) = (a.length : Int) + 1 := by push_cast; rfl
  rw [hc] at h
  rw [h]
  have hd : List.drop (a.length + 1) (a ++ x :: b) = b := by
    rw [← List.drop_drop]
    simp
  rw [hd]
  apply List.take_of_length_le
  simp only [List.length_append, List.length_cons]
  omega

theorem substringFrom_zero (s : JSString) : substringFrom s 0 = s := by
  unfold substringFrom
  have h := substring_of_le s 0 s.length (Nat.zero_le _) le_rfl
  simp only [Nat.cast_zero] at h
  rw [h]
  simp

theorem partBefore_split (a b : JSString) (ha : ∀ c ∈ a, c ≠ ':') :
    partBefore (a ++ ':' :: b) = a := by
  unfold partBefore
  induction a with
  | nil => simp [List.takeWhile]
  | cons d a ih =>
    have hd : d ≠ ':' := ha d (List.mem_cons_self d a)
    simp only [List.cons_append, List.takeWhile_cons]
    simp [hd, ih (fun c hc => ha c (List.mem_cons_of_mem d hc))]

theorem partAfter_split (a b : JSString) (ha : ∀ c ∈ a, c ≠ ':') :
    partAfter (a ++ ':' :: b) = b := by
  unfold partAfter
  induction a with
  | nil => simp [List.dropWhile]
  | cons d a ih =>
    have hd : d ≠ ':' := ha d (List.mem_cons_self d a)
    simp only [List.cons_append, List.dropWhile_cons]
    simp [hd, ih (fun c hc => ha c (List.mem_cons_of_mem d hc))]

theorem partBefore_no_colon (k : JSString) : ∀ c ∈ partBefore k, c ≠ ':' := by
  intro c hc
  unfold partBefore at hc
  have := List.mem_takeWhile_imp hc
  simpa using this

/-- A string with a colon is its part before the first colon, the colon, and the rest. -/
theorem split_at_first_colon (k : JSString) (hk : ':' ∈ k) :
    k = partBefore k ++ ':' :: partAfter k := by
  unfold partBefore partAfter
  induction k with
  | nil => cases hk
  | cons d k ih =>
    by_cases hd : d = ':'
    · subst hd
      simp [List.takeWhile, List.dropWhile]
    · have hk2 : ':' ∈ k := by
        rcases List.mem_cons.mp hk with h | h
        · exact absurd h.symm hd
        · exact h
      have := ih hk2
      simp only [List.takeWhile_cons, List.dropWhile_cons]
      simp only [bne_iff_ne, ne_eq, hd, not_false_eq_true, decide_True, if_true,
        List.cons_append, List.cons.injEq, true_and]
      exact this

/-- Every string either has no slash or splits at its last slash. -/
theorem split_at_last_slash (s : JSString) :
    (∀ c ∈ s, c ≠ '/') ∨ ∃ a b, s = a ++ '/' :: b ∧ ∀ c ∈ b, c ≠ '/' := by
  induction s with
  | nil => left; intro c hc; cases hc
  | cons d s ih =>
    rcases ih with h | ⟨a, b, hs, hb⟩
    · by_cases hd : d = '/'
      · right
        exact ⟨[], s, by simp [hd], h⟩
      · left
        intro c hc
        rcases List.mem_cons.mp hc with rfl | hc
        · exact hd
        · exact h c hc
    · right
      exact ⟨d :: a, b, by simp [hs], hb⟩

/-- Line 131 cuts the service URL after its last slash. -/
theorem commandOf_spec (service : JSString) :
    ((∀ c ∈ service, c ≠ '/') ∧ commandOf service = service) ∨
      ∃ a, service = a ++ '/' :: commandOf service ∧ ∀ c ∈ commandOf service, c ≠ '/' := by
  rcases split_at_last_slash service with h | ⟨a, b, hs, hb⟩
  · left
    refine ⟨h, ?_⟩
    unfold commandOf
    rw [lastIndexOf_absent service '/' h]
    exact substringFrom_zero service
  · right
    have hc : commandOf service = b := by
      unfold commandOf
      rw [hs, lastIndexOf_last a b '/' hb]
      exact substringFrom_after a b '/'
    rw [hc]
    exact ⟨a, hs, hb⟩

/-! ## The request arguments -/

theorem copy_arguments (items : List JSValue) (n : Nat) (hn : n ≤ items.length) :
    (List.range n).foldl
      (fun reqArgs argIdx => assignAt reqArgs argIdx (elementAt items argIdx)) [] =
      items.take n := by
  induction n with
  | zero => simp
  | succ n ih =>
    rw [List.range_succ, List.foldl_append, ih (Nat.le_of_succ_le hn)]
    have hlt : n < items.length := hn
    have hlen : (items.take n).length = n := by
      rw [List.length_take]; omega
    simp only [List.foldl_cons, List.foldl_nil, assignAt, hlen, lt_irrefl, if_false,
      Nat.sub_self, List.replicate_zero, List.append_nil, elementAt]
    rw [List.take_succ, List.getD_eq_getElem?_getD, List.getElem?_eq_getElem hlt]
    simp

/-- Lines 135-142 copy the array `reqBody.arguments`. -/
theorem requestArguments_array (reqBody : List (JSString × JSValue)) (items : List JSValue)
    (h : getMember reqBody "arguments".toList = JSValue.array items) :
    requestArguments reqBody = items := by
  unfold requestArguments
  simp only [h, JSValue.truthy, JSValue.isArray, Bool.and_self, if_true]
  rw [copy_arguments items items.length le_rfl, List.take_length]

theorem requestArguments_bodyOf (arguments : List String) :
    requestArguments (bodyOf arguments) =
      arguments.map (fun a => JSValue.string a.toList) := by
  apply requestArguments_array
  simp [bodyOf, getMember]

/-! ## Key identifiers -/

theorem keyPattern_parts_iff (k : JSString) :
    keyPattern.fullMatch k = true ↔
      ':' ∈ k ∧ partBefore k ≠ [] ∧ partAfter k ≠ [] ∧
        ∀ c ∈ partAfter k, Pattern.isLineTerminator c = false := by
  rw [keyPattern_fullMatch_iff]
  constructor
  · rintro ⟨a, b, rfl, ha, hca, hb, hcb⟩
    rw [partBefore_split a b hca, partAfter_split a b hca]
    exact ⟨by simp, ha, hb, hcb⟩
  · rintro ⟨hk, ha, hb, hcb⟩
    exact ⟨partBefore k, partAfter k, split_at_first_colon k hk, ha,
      partBefore_no_colon k, hb, hcb⟩

/-- Lines 39-57 in one equation: a value whose string conversion throws ends the run, a
string that fits the pattern is cut at its first colon, any other sets bad-request. -/
theorem toMasterKeyReference_eq {σ ε V : Type} (key : JSValue) (r : Run σ ε V) :
    toMasterKeyReference key r =
      match key.toJSString with
      | none => (none, r.throwTypeError)
      | some s =>
        if keyPattern.fullMatch s = true then
          (some { keystoreId := partBefore s, aliasName := partAfter s },
            r.invoke .getMasterKeyManager)
        else
          (none, r.setCode .STATUS_BAD_REQUEST
            "A master key must be specified using the identifer pattern \"<keystoreId>:<alias>\"") := by
  unfold toMasterKeyReference Pattern.test
  cases hs : key.toJSString with
  | none => rfl
  | some s =>
    simp only [Option.map_some']
    by_cases h : keyPattern.fullMatch s = true
    · obtain ⟨a, b, hk, _, hca, _, _⟩ := (keyPattern_fullMatch_iff _).mp h
      simp only [h, Bool.not_true, if_true, getMasterKeyManager]
      rw [hk, indexOf_first a b ':' hca, substring_before, substringFrom_after,
        partBefore_split a b hca, partAfter_split a b hca]
      rfl
    · simp only [Bool.not_eq_true] at h
      simp [h]

/-- The three ways `toMasterKeyReference` can go for a value. -/
theorem key_cases (key : JSValue) :
    key.toJSString = none ∨
      (∃ s, key.toJSString = some s ∧ keyPattern.fullMatch s = false) ∨
      (∃ s, key.toJSString = some s ∧ keyPattern.fullMatch s = true) := by
  cases hs : key.toJSString with
  | none => exact Or.inl rfl
  | some s =>
    cases hm : keyPattern.fullMatch s with
    | false => exact Or.inr (Or.inl ⟨s, rfl, hm⟩)
    | true => exact Or.inr (Or.inr ⟨s, rfl, hm⟩)

/-! ## The dispatch of `main` -/

section Dispatch

variable {σ ε V : Type} (core : Core σ ε V) (service : JSString)
  (reqBody : List (JSString × JSValue)) (w : σ)

theorem main_help (h : commandOf service = "help".toList) :
    main core service reqBody w = entry w (commandOf service) := by
  unfold main
  simp only []
  rw [if_pos h]
  rfl

theorem main_enableEncryptionKey (h : commandOf service = "enableEncryptionKey".toList) :
    main core service reqBody w =
      keyEnablement core (requestArguments reqBody) true (entry w (commandOf service)) := by
  unfold main
  simp only []
  rw [if_neg (by rw [h]; decide), if_neg (by rw [h]; decide), if_pos h]
  rfl

theorem main_disableEncryptionKey (h : commandOf service = "disableEncryptionKey".toList) :
    main core service reqBody w =
      keyEnablement core (requestArguments reqBody) false (entry w (commandOf service)) := by
  unfold main
  simp only []
  rw [if_neg (by rw [h]; decide), if_neg (by rw [h]; decide), if_neg (by rw [h]; decide), if_pos h]
  rfl

theorem main_countEncryptedSymmetricKeys
    (h : commandOf service = "countEncryptedSymmetricKeys".toList) :
    main core service reqBody w =
      countSymmetricKeys core (requestArguments reqBody) (entry w (commandOf service)) := by
  unfold main
  simp only []
  rw [if_neg (by rw [h]; decide), if_neg (by rw [h]; decide), if_neg (by rw [h]; decide),
    if_neg (by rw [h]; decide), if_pos h]
  rfl

theorem main_reEncryptSymmetricKeys (h : commandOf service = "reEncryptSymmetricKeys".toList) :
    main core service reqBody w =
      reEncryptSymmetricKeys core (requestArguments reqBody) (entry w (commandOf service)) := by
  unfold main
  simp only []
  rw [if_neg (by rw [h]; decide), if_neg (by rw [h]; decide), if_neg (by rw [h]; decide),
    if_neg (by rw [h]; decide), if_neg (by rw [h]; decide), if_neg (by rw [h]; decide),
    if_pos h]
  rfl

theorem main_unknown (h : commandOf service ∉ knownCommands) :
    main core service reqBody w =
      (entry w (commandOf service)).setCode .STATUS_NOT_FOUND "Command not found" := by
  simp only [knownCommands, List.mem_cons, List.mem_singleton, List.not_mem_nil, or_false,
    not_or] at h
  obtain ⟨h1, h2, h3, h4, h5, h6, h7⟩ := h
  unfold main
  simp only []
  rw [if_neg h1, if_neg h2, if_neg h3, if_neg h4, if_neg h5, if_neg h6, if_neg h7]
  rfl

theorem main_listEncryptionKeys (h : commandOf service = "listEncryptionKeys".toList) :
    main core service reqBody w =
      match (if (requestArguments reqBody).length ≥ 1 then
          (modePattern.test (elementAt (requestArguments reqBody) 0)).map (fun m => !m)
        else some false) with
      | none => (entry w (commandOf service)).throwTypeError
      | some true =>
        (entry w (commandOf service)).setCode .STATUS_BAD_REQUEST
          "Mode parameter may only be \"active\" or \"inactive\""
      | some false =>
        match ((elementAt (requestArguments reqBody) 0).or
            (.string "active".toList)).toJSString with
        | none => ((entry w (commandOf service)).invoke .getMasterKeyManager).throwTypeError
        | some mode =>
          if mode = "active".toList then
            ((entry w (commandOf service)).invoke .getMasterKeyManager).query .activeKeys
              core.activeKeys (fun v r => { r with model := { r.model with keys := some v } })
          else
            ((entry w (commandOf service)).invoke .getMasterKeyManager).query .disabledKeys
              core.disabledKeys
              (fun v r => { r with model := { r.model with keys := some v } }) := by
  unfold main
  simp only []
  rw [if_neg (by rw [h]; decide), if_pos h]
  rfl

theorem main_listEncryptionKeysEligibleForReEncryption
    (h : commandOf service = "listEncryptionKeysEligibleForReEncryption".toList) :
    main core service reqBody w =
      ((entry w (commandOf service)).invoke .getMasterKeyManager).query
        .keysRequiringReEncryption core.keysRequiringReEncryption
        (fun v r => { r with model := { r.model with keys := some v } }) := by
  unfold main
  simp only []
  rw [if_neg (by rw [h]; decide), if_neg (by rw [h]; decide), if_neg (by rw [h]; decide),
    if_neg (by rw [h]; decide), if_neg (by rw [h]; decide), if_pos h]
  rfl

/-- Every command name is one of the seven known ones or none of them. -/
theorem command_cases (c : JSString) :
    c = "help".toList ∨ c = "listEncryptionKeys".toList ∨ c = "enableEncryptionKey".toList ∨
      c = "disableEncryptionKey".toList ∨ c = "countEncryptedSymmetricKeys".toList ∨
      c = "listEncryptionKeysEligibleForReEncryption".toList ∨
      c = "reEncryptSymmetricKeys".toList ∨ c ∉ knownCommands := by
  by_cases h : c ∈ knownCommands
  · simp only [knownCommands, List.mem_cons, List.mem_singleton, List.not_mem_nil,
      or_false] at h
    tauto
  · exact Or.inr (Or.inr (Or.inr (Or.inr (Or.inr (Or.inr (Or.inr h))))))

end Dispatch

/-! ## The commands with a key identifier -/

section Commands

variable {σ ε V : Type} (core : Core σ ε V)

theorem keyEnablement_nil (enable : Bool) (r : Run σ ε V) :
    keyEnablement core [] enable r =
      r.setCode .STATUS_BAD_REQUEST "A master key must be specified" := by
  simp [keyEnablement]

theorem keyEnablement_thrown (key : JSValue) (rest : List JSValue) (enable : Bool)
    (r : Run σ ε V) (hs : key.toJSString = none) :
    keyEnablement core (key :: rest) enable r = r.throwTypeError := by
  simp [keyEnablement, elementAt, toMasterKeyReference_eq, hs]

theorem keyEnablement_rejected (key : JSValue) (rest : List JSValue) (enable : Bool)
    (r : Run σ ε V) (s : JSString) (hs : key.toJSString = some s)
    (h : keyPattern.fullMatch s = false) :
    keyEnablement core (key :: rest) enable r =
      r.setCode .STATUS_BAD_REQUEST
        "A master key must be specified using the identifer pattern \"<keystoreId>:<alias>\"" := by
  simp [keyEnablement, elementAt, toMasterKeyReference_eq, hs, h]

theorem keyEnablement_accepted (key : JSValue) (rest : List JSValue) (enable : Bool)
    (r : Run σ ε V) (s : JSString) (hs : key.toJSString = some s)
    (h : keyPattern.fullMatch s = true) :
    keyEnablement core (key :: rest) enable r =
      let ref : MasterKeyReference := { keystoreId := partBefore s, aliasName := partAfter s }
      let r2 := (r.invoke .getMasterKeyManager).invoke .getMasterKeyManager
      let assignKey := fun (r : Run σ ε V) => { r with model := { r.model with key := some ref } }
      if enable then r2.update (.enable ref) (core.enable ref) assignKey
      else r2.update (.disable ref) (core.disable ref) assignKey := by
  simp [keyEnablement, elementAt, toMasterKeyReference_eq, hs, h, getMasterKeyManager]

theorem countSymmetricKeys_nil (r : Run σ ε V) :
    countSymmetricKeys core [] r =
      (r.invoke .getMasterKeyManager).query (.countEncryptedSymmetricKeys none)
        (core.countEncryptedSymmetricKeys none)
        (fun v r => { r with model := { r.model with symmetricKeyCounts := some v } }) := by
  simp [countSymmetricKeys, getMasterKeyManager]

theorem countSymmetricKeys_thrown (key : JSValue) (rest : List JSValue) (r : Run σ ε V)
    (hs : key.toJSString = none) :
    countSymmetricKeys core (key :: rest) r =
      (r.invoke .getMasterKeyManager).throwTypeError := by
  simp [countSymmetricKeys, elementAt, toMasterKeyReference_eq, hs, getMasterKeyManager]

theorem countSymmetricKeys_rejected (key : JSValue) (rest : List JSValue) (r : Run σ ε V)
    (s : JSString) (hs : key.toJSString = some s) (h : keyPattern.fullMatch s = false) :
    countSymmetricKeys core (key :: rest) r =
      (r.invoke .getMasterKeyManager).setCode .STATUS_BAD_REQUEST
        "A master key must be specified using the identifer pattern \"<keystoreId>:<alias>\"" := by
  simp [countSymmetricKeys, elementAt, toMasterKeyReference_eq, hs, h, getMasterKeyManager]

theorem countSymmetricKeys_accepted (key : JSValue) (rest : List JSValue) (r : Run σ ε V)
    (s : JSString) (hs : key.toJSString = some s) (h : keyPattern.fullMatch s = true) :
    countSymmetricKeys core (key :: rest) r =
      let ref : MasterKeyReference := { keystoreId := partBefore s, aliasName := partAfter s }
      ((r.invoke .getMasterKeyManager).invoke .getMasterKeyManager).query
        (.countEncryptedSymmetricKeys (some ref)) (core.countEncryptedSymmetricKeys (some ref))
        (fun v r => { r with model := { r.model with symmetricKeyCount := some v,
                                                       key := some ref } }) := by
  simp [countSymmetricKeys, elementAt, toMasterKeyReference_eq, hs, h, getMasterKeyManager]

theorem reEncryptSymmetricKeys_nil (r : Run σ ε V) :
    reEncryptSymmetricKeys core [] r =
      r.setCode .STATUS_BAD_REQUEST "A master key must be specified" := by
  simp [reEncryptSymmetricKeys]

theorem reEncryptSymmetricKeys_thrown (key : JSValue) (rest : List JSValue) (r : Run σ ε V)
    (hs : key.toJSString = none) :
    reEncryptSymmetricKeys core (key :: rest) r = r.throwTypeError := by
  simp [reEncryptSymmetricKeys, elementAt, toMasterKeyReference_eq, hs]

theorem reEncryptSymmetricKeys_rejected (key : JSValue) (rest : List JSValue) (r : Run σ ε V)
    (s : JSString) (hs : key.toJSString = some s) (h : keyPattern.fullMatch s = false) :
    reEncryptSymmetricKeys core (key :: rest) r =
      r.setCode .STATUS_BAD_REQUEST
        "A master key must be specified using the identifer pattern \"<keystoreId>:<alias>\"" := by
  simp [reEncryptSymmetricKeys, elementAt, toMasterKeyReference_eq, hs, h]

theorem reEncryptSymmetricKeys_accepted (key : JSValue) (rest : List JSValue) (r : Run σ ε V)
    (s : JSString) (hs : key.toJSString = some s) (h : keyPattern.fullMatch s = true) :
    reEncryptSymmetricKeys core (key :: rest) r =
      let ref : MasterKeyReference := { keystoreId := partBefore s, aliasName := partAfter s }
      ((r.invoke .getMasterKeyManager).invoke .getEncryptingContentStoreManager).update
        (.reEncryptSymmetricKeys ref) (core.reEncryptSymmetricKeys ref)
        (fun r => { r with model := { r.model with key := some ref } }) := by
  simp [reEncryptSymmetricKeys, elementAt, toMasterKeyReference_eq, hs, h, getMasterKeyManager,
    getEncryptingContentStoreManager]

/-- A string without a colon, or with nothing before or nothing after its first colon, does
not fit the key pattern. -/
theorem malformed_not_matched (k : JSString)
    (h : ':' ∉ k ∨ partBefore k = [] ∨ partAfter k = []) :
    keyPattern.fullMatch k = false := by
  apply Bool.eq_false_iff.mpr
  intro hm
  obtain ⟨h1, h2, h3, _⟩ := (keyPattern_parts_iff k).mp hm
  rcases h with h | h | h
  · exact h h1
  · exact h2 h
  · exact h3 h

end Commands

/-! ## Claims on `toMasterKeyReference` -/

section KeyClaims

variable {σ ε V : Type}

theorem toMasterKeyReference_fst_some (key : JSValue) (r : Run σ ε V) (ref : MasterKeyReference)
    (h : (toMasterKeyReference key r).1 = some ref) :
    ∃ s, key.toJSString = some s ∧ keyPattern.fullMatch s = true ∧
      ref = { keystoreId := partBefore s, aliasName := partAfter s } := by
  rw [toMasterKeyReference_eq] at h
  cases hs : key.toJSString with
  | none =>
    rw [hs] at h
    cases h
  | some s =>
    rw [hs] at h
    simp only [] at h
    split at h
    · rename_i hm
      simp only [Option.some.injEq] at h
      exact ⟨s, rfl, hm, h.symm⟩
    · cases h

/-- C1, amended: `toMasterKeyReference` accepts a string (returns a reference and leaves the
status as it was) exactly when the string has a colon, a non-empty part before its first
colon and a non-empty part after it that holds no line terminator, further colons allowed;
it returns nothing and sets bad-request exactly for all other strings. -/
theorem toMasterKeyReference_accepts_iff (k : JSString) (r : Run σ ε V) :
    (((∃ ref, (toMasterKeyReference (.string k) r).1 = some ref) ∧
        (toMasterKeyReference (.string k) r).2.status = r.status) ↔ WellFormedKey k) ∧
    (((toMasterKeyReference (.string k) r).1 = none ∧
        statusCode (toMasterKeyReference (.string k) r).2 = some .STATUS_BAD_REQUEST) ↔
      ¬ WellFormedKey k) := by
  have hw : WellFormedKey k ↔ keyPattern.fullMatch k = true := (keyPattern_parts_iff k).symm
  rw [hw, toMasterKeyReference_eq]
  have hs : (JSValue.string k).toJSString = some k := rfl
  rw [hs]
  by_cases h : keyPattern.fullMatch k = true
  · simp [h, Run.invoke]
  · simp [h, Run.setCode, statusCode]

/-- C1, as stated, fails in both directions: `ks:a:b` has two colons and is accepted, cut
into `ks` and `a:b`; `ks:a`, line feed, `b` has exactly one colon with non-empty parts and
is rejected with bad-request. -/
theorem toMasterKeyReference_not_exactly_one_separator :
    ((toMasterKeyReference (.string "ks:a:b".toList) (Run.start () : Run Unit Unit Unit)).1 =
        some (mkRef "ks" "a:b") ∧
      (toMasterKeyReference (.string "ks:a:b".toList)
        (Run.start () : Run Unit Unit Unit)).2.status = none ∧
      exactlyOneSeparator "ks:a:b".toList = false) ∧
    ((toMasterKeyReference (.string "ks:a\nb".toList) (Run.start () : Run Unit Unit Unit)).1 =
        none ∧
      statusCode (toMasterKeyReference (.string "ks:a\nb".toList)
        (Run.start () : Run Unit Unit Unit)).2 = some .STATUS_BAD_REQUEST ∧
      exactlyOneSeparator "ks:a\nb".toList = true) := by
  decide

/-- C2: whenever `toMasterKeyReference` returns a reference, for a string or any other
argument value, the keystore id and the alias passed to the constructor both have length at
least one. -/
theorem toMasterKeyReference_components_nonempty (key : JSValue) (r : Run σ ε V)
    (ref : MasterKeyReference) (h : (toMasterKeyReference key r).1 = some ref) :
    1 ≤ ref.keystoreId.length ∧ 1 ≤ ref.aliasName.length := by
  obtain ⟨s, _, hm, rfl⟩ := toMasterKeyReference_fst_some key r ref h
  obtain ⟨_, ha, hb, _⟩ := (keyPattern_parts_iff _).mp hm
  exact ⟨List.length_pos.mpr ha, List.length_pos.mpr hb⟩

/-- C2 at the identifier `ks:a`. -/
theorem toMasterKeyReference_components_nonempty_witness :
    (toMasterKeyReference (.string "ks:a".toList) (Run.start () : Run Unit Unit Unit)).1 =
        some (mkRef "ks" "a") ∧
      1 ≤ (mkRef "ks" "a").keystoreId.length ∧ 1 ≤ (mkRef "ks" "a").aliasName.length :=
  ⟨by decide, toMasterKeyReference_components_nonempty (.string "ks:a".toList)
    (Run.start () : Run Unit Unit Unit) (mkRef "ks" "a") (by decide)⟩

/-- C9: an accepted identifier is cut at its first colon without loss: the keystore id is
the part before the first colon and has no colon, the alias is all that follows the first
colon, keystore id, colon and alias put together give the identifier back, and two accepted
identifiers give equal references exactly when they are equal strings. -/
theorem toMasterKeyReference_split (k1 k2 : JSString) (r1 r2 : Run σ ε V)
    (ref1 ref2 : MasterKeyReference)
    (h1 : (toMasterKeyReference (.string k1) r1).1 = some ref1)
    (h2 : (toMasterKeyReference (.string k2) r2).1 = some ref2) :
    ref1.keystoreId = partBefore k1 ∧ (∀ c ∈ ref1.keystoreId, c ≠ ':') ∧
      ref1.aliasName = partAfter k1 ∧ ref1.keystoreId ++ ':' :: ref1.aliasName = k1 ∧
      (ref1 = ref2 ↔ k1 = k2) := by
  obtain ⟨s1, hs1, hm1, rfl⟩ := toMasterKeyReference_fst_some _ r1 ref1 h1
  obtain ⟨s2, hs2, hm2, rfl⟩ := toMasterKeyReference_fst_some _ r2 ref2 h2
  simp only [JSValue.toJSString, Option.some.injEq] at hs1 hs2
  subst hs1; subst hs2
  show partBefore k1 = partBefore k1 ∧ (∀ c ∈ partBefore k1, c ≠ ':') ∧
    partAfter k1 = partAfter k1 ∧ partBefore k1 ++ ':' :: partAfter k1 = k1 ∧
    ((⟨partBefore k1, partAfter k1⟩ : MasterKeyReference) = ⟨partBefore k2, partAfter k2⟩ ↔
      k1 = k2)
  obtain ⟨hc1, _⟩ := (keyPattern_parts_iff _).mp hm1
  obtain ⟨hc2, _⟩ := (keyPattern_parts_iff _).mp hm2
  have e1 := split_at_first_colon k1 hc1
  have e2 := split_at_first_colon k2 hc2
  refine ⟨rfl, partBefore_no_colon k1, rfl, e1.symm, ?_⟩
  constructor
  · intro h
    simp only [MasterKeyReference.mk.injEq] at h
    rw [e1, e2, h.1, h.2]
  · rintro rfl
    rfl

/-- C9 at the identifiers `ks:a:b` and `ks:a`. -/
theorem toMasterKeyReference_split_witness :
    (mkRef "ks" "a:b").keystoreId = partBefore "ks:a:b".toList ∧
      (∀ c ∈ (mkRef "ks" "a:b").keystoreId, c ≠ ':') ∧
      (mkRef "ks" "a:b").aliasName = partAfter "ks:a:b".toList ∧
      (mkRef "ks" "a:b").keystoreId ++ ':' :: (mkRef "ks" "a:b").aliasName = "ks:a:b".toList ∧
      (mkRef "ks" "a:b" = mkRef "ks" "a" ↔ "ks:a:b".toList = "ks:a".toList) :=
  toMasterKeyReference_split "ks:a:b".toList "ks:a".toList
    (Run.start () : Run Unit Unit Unit) (Run.start () : Run Unit Unit Unit)
    (mkRef "ks" "a:b") (mkRef "ks" "a") (by decide) (by decide)

end KeyClaims

/-! ## Claims on the commands -/

set_option maxRecDepth 20000

section CommandClaims

variable {σ ε V : Type}

/-- C3: `enableEncryptionKey`, `disableEncryptionKey` and `reEncryptSymmetricKeys` set
bad-request when the argument list is empty or its first argument is a string without a
colon, or with an empty part before or after its first colon; `countEncryptedSymmetricKeys`
sets bad-request for every such first argument. -/
theorem malformed_identifier_sets_bad_request (core : Core σ ε V) (service : JSString)
    (reqBody : List (JSString × JSValue)) (w : σ)
    (hcmd : commandOf service = "enableEncryptionKey".toList ∨
      commandOf service = "disableEncryptionKey".toList ∨
      commandOf service = "reEncryptSymmetricKeys".toList ∨
      (commandOf service = "countEncryptedSymmetricKeys".toList ∧
        requestArguments reqBody ≠ []))
    (hargs : requestArguments reqBody = [] ∨
      ∃ k rest, requestArguments reqBody = JSValue.string k :: rest ∧
        (':' ∉ k ∨ partBefore k = [] ∨ partAfter k = [])) :
    statusCode (main core service reqBody w) = some .STATUS_BAD_REQUEST := by
  rcases hcmd with hc | hc | hc | ⟨hc, hne⟩
  · rw [main_enableEncryptionKey _ _ _ _ hc]
    rcases hargs with ha | ⟨k, rest, ha, hk⟩
    · rw [ha, keyEnablement_nil]; rfl
    · rw [ha, keyEnablement_rejected _ (.string k) rest _ _ k rfl (malformed_not_matched k hk)]; rfl
  · rw [main_disableEncryptionKey _ _ _ _ hc]
    rcases hargs with ha | ⟨k, rest, ha, hk⟩
    · rw [ha, keyEnablement_nil]; rfl
    · rw [ha, keyEnablement_rejected _ (.string k) rest _ _ k rfl (malformed_not_matched k hk)]; rfl
  · rw [main_reEncryptSymmetricKeys _ _ _ _ hc]
    rcases hargs with ha | ⟨k, rest, ha, hk⟩
    · rw [ha, reEncryptSymmetricKeys_nil]; rfl
    · rw [ha, reEncryptSymmetricKeys_rejected _ (.string k) rest _ k rfl (malformed_not_matched k hk)]; rfl
  · rw [main_countEncryptedSymmetricKeys _ _ _ _ hc]
    rcases hargs with ha | ⟨k, rest, ha, hk⟩
    · exact absurd ha hne
    · rw [ha, countSymmetricKeys_rejected _ (.string k) rest _ k rfl (malformed_not_matched k hk)]; rfl

/-- C3 at five requests: `enableEncryptionKey` without arguments and with the empty string,
`disableEncryptionKey` with `abc`, `reEncryptSymmetricKeys` with `:b` and
`countEncryptedSymmetricKeys` with `a:`. -/
theorem malformed_identifier_sets_bad_request_witness :
    statusCode (main specCore (serviceOf "enableEncryptionKey") (bodyOf []) sampleRegistry) =
        some .STATUS_BAD_REQUEST ∧
      statusCode (main specCore (serviceOf "enableEncryptionKey") (bodyOf [""]) sampleRegistry) =
        some .STATUS_BAD_REQUEST ∧
      statusCode (main specCore (serviceOf "disableEncryptionKey") (bodyOf ["abc"])
        sampleRegistry) = some .STATUS_BAD_REQUEST ∧
      statusCode (main specCore (serviceOf "reEncryptSymmetricKeys") (bodyOf [":b"])
        sampleRegistry) = some .STATUS_BAD_REQUEST ∧
      statusCode (main specCore (serviceOf "countEncryptedSymmetricKeys") (bodyOf ["a:"])
        sampleRegistry) = some .STATUS_BAD_REQUEST :=
  ⟨malformed_identifier_sets_bad_request specCore (serviceOf "enableEncryptionKey")
      (bodyOf []) sampleRegistry (Or.inl (by decide)) (Or.inl rfl),
    malformed_identifier_sets_bad_request specCore (serviceOf "enableEncryptionKey")
      (bodyOf [""]) sampleRegistry (Or.inl (by decide))
      (Or.inr ⟨[], [], rfl, by decide⟩),
    malformed_identifier_sets_bad_request specCore (serviceOf "disableEncryptionKey")
      (bodyOf ["abc"]) sampleRegistry (Or.inr (Or.inl (by decide)))
      (Or.inr ⟨"abc".toList, [], rfl, by decide⟩),
    malformed_identifier_sets_bad_request specCore (serviceOf "reEncryptSymmetricKeys")
      (bodyOf [":b"]) sampleRegistry (Or.inr (Or.inr (Or.inl (by decide))))
      (Or.inr ⟨":b".toList, [], rfl, by decide⟩),
    malformed_identifier_sets_bad_request specCore (serviceOf "countEncryptedSymmetricKeys")
      (bodyOf ["a:"]) sampleRegistry
      (Or.inr (Or.inr (Or.inr ⟨by decide, by rw [requestArguments_bodyOf]; simp⟩)))
      (Or.inr ⟨"a:".toList, [], rfl, by decide⟩)⟩

/-- C4: a run of `main` that ends with bad-request has called none of `enable`, `disable`,
`countEncryptedSymmetricKeys` and `reEncryptSymmetricKeys`, and has left `model.key`,
`model.symmetricKeyCount` and `model.symmetricKeyCounts` unset, whatever the command and
the arguments are. -/
theorem bad_request_reaches_no_core_operation (core : Core σ ε V) (service : JSString)
    (reqBody : List (JSString × JSValue)) (w : σ)
    (h : statusCode (main core service reqBody w) = some .STATUS_BAD_REQUEST) :
    (∀ c ∈ (main core service reqBody w).calls, c.isKeyOperation = false) ∧
      (main core service reqBody w).model.key = none ∧
      (main core service reqBody w).model.symmetricKeyCount = none ∧
      (main core service reqBody w).model.symmetricKeyCounts = none := by
  rcases command_cases (commandOf service) with hc | hc | hc | hc | hc | hc | hc | hc
  · rw [main_help _ _ _ _ hc] at h
    simp [statusCode, entry] at h
  · rw [main_listEncryptionKeys _ _ _ _ hc] at h ⊢
    generalize (if (requestArguments reqBody).length ≥ 1 then
        (modePattern.test (elementAt (requestArguments reqBody) 0)).map (fun m => !m)
      else some false) = badMode at h ⊢
    rcases badMode with _ | _ | _
    · simp [Run.throwTypeError, entry, statusCode] at h
    · simp only [] at h
      split at h
      · simp [Run.throwTypeError, Run.invoke, entry, statusCode] at h
      · split at h
        · cases hq : core.activeKeys w <;>
            simp [Run.query, Run.invoke, entry, statusCode, hq] at h
        · cases hq : core.disabledKeys w <;>
            simp [Run.query, Run.invoke, entry, statusCode, hq] at h
    · simp [Run.setCode, entry]
  · rw [main_enableEncryptionKey _ _ _ _ hc] at h ⊢
    cases hargs : requestArguments reqBody with
    | nil =>
      rw [hargs] at h
      rw [keyEnablement_nil]
      simp [Run.setCode, entry]
    | cons key rest =>
      rw [hargs] at h
      rcases key_cases key with hs | ⟨s, hs, hm⟩ | ⟨s, hs, hm⟩
      · rw [keyEnablement_thrown _ _ _ _ _ hs] at h
        simp [Run.throwTypeError, Run.invoke, entry, statusCode] at h
      · rw [keyEnablement_rejected _ _ _ _ _ s hs hm]
        simp [Run.setCode, entry]
      · rw [keyEnablement_accepted _ _ _ _ _ s hs hm] at h
        cases hq : core.enable
            { keystoreId := partBefore s, aliasName := partAfter s } w <;>
          simp [Run.update, Run.invoke, entry, statusCode, hq] at h
  · rw [main_disableEncryptionKey _ _ _ _ hc] at h ⊢
    cases hargs : requestArguments reqBody with
    | nil =>
      rw [hargs] at h
      rw [keyEnablement_nil]
      simp [Run.setCode, entry]
    | cons key rest =>
      rw [hargs] at h
      rcases key_cases key with hs | ⟨s, hs, hm⟩ | ⟨s, hs, hm⟩
      · rw [keyEnablement_thrown _ _ _ _ _ hs] at h
        simp [Run.throwTypeError, Run.invoke, entry, statusCode] at h
      · rw [keyEnablement_rejected _ _ _ _ _ s hs hm]
        simp [Run.setCode, entry]
      · rw [keyEnablement_accepted _ _ _ _ _ s hs hm] at h
        cases hq : core.disable
            { keystoreId := partBefore s, aliasName := partAfter s } w <;>
          simp [Run.update, Run.invoke, entry, statusCode, hq] at h
  · rw [main_countEncryptedSymmetricKeys _ _ _ _ hc] at h ⊢
    cases hargs : requestArguments reqBody with
    | nil =>
      rw [hargs, countSymmetricKeys_nil] at h
      cases hq : core.countEncryptedSymmetricKeys none w <;>
        simp [Run.query, Run.invoke, entry, statusCode, hq] at h
    | cons key rest =>
      rw [hargs] at h
      rcases key_cases key with hs | ⟨s, hs, hm⟩ | ⟨s, hs, hm⟩
      · rw [countSymmetricKeys_thrown _ _ _ _ hs] at h
        simp [Run.throwTypeError, Run.invoke, entry, statusCode] at h
      · rw [countSymmetricKeys_rejected _ _ _ _ s hs hm]
        simp [Run.setCode, Run.invoke, entry, Call.isKeyOperation]
      · rw [countSymmetricKeys_accepted _ _ _ _ s hs hm] at h
        cases hq : core.countEncryptedSymmetricKeys (some
            { keystoreId := partBefore s, aliasName := partAfter s }) w <;>
          simp [Run.query, Run.invoke, entry, statusCode, hq] at h
  · rw [main_listEncryptionKeysEligibleForReEncryption _ _ _ _ hc] at h
    cases hq : core.keysRequiringReEncryption w <;>
      simp [Run.query, Run.invoke, entry, statusCode, hq] at h
  · rw [main_reEncryptSymmetricKeys _ _ _ _ hc] at h ⊢
    cases hargs : requestArguments reqBody with
    | nil =>
      rw [hargs] at h
      rw [reEncryptSymmetricKeys_nil]
      simp [Run.setCode, entry]
    | cons key rest =>
      rw [hargs] at h
      rcases key_cases key with hs | ⟨s, hs, hm⟩ | ⟨s, hs, hm⟩
      · rw [reEncryptSymmetricKeys_thrown _ _ _ _ hs] at h
        simp [Run.throwTypeError, Run.invoke, entry, statusCode] at h
      · rw [reEncryptSymmetricKeys_rejected _ _ _ _ s hs hm]
        simp [Run.setCode, entry]
      · rw [reEncryptSymmetricKeys_accepted _ _ _ _ s hs hm] at h
        cases hq : core.reEncryptSymmetricKeys
            { keystoreId := partBefore s, aliasName := partAfter s } w <;>
          simp [Run.update, Run.invoke, entry, statusCode, hq] at h
  · rw [main_unknown _ _ _ _ hc] at h
    simp [Run.setCode, entry, statusCode] at h

/-- C4 at the request `disableEncryptionKey` with the malformed identifier `abc`. -/
theorem bad_request_reaches_no_core_operation_witness :
    statusCode (main specCore (serviceOf "disableEncryptionKey") (bodyOf ["abc"])
        sampleRegistry) = some .STATUS_BAD_REQUEST ∧
      (∀ c ∈ (main specCore (serviceOf "disableEncryptionKey") (bodyOf ["abc"])
        sampleRegistry).calls, c.isKeyOperation = false) ∧
      (main specCore (serviceOf "disableEncryptionKey") (bodyOf ["abc"])
        sampleRegistry).model.key = none ∧
      (main specCore (serviceOf "disableEncryptionKey") (bodyOf ["abc"])
        sampleRegistry).model.symmetricKeyCount = none ∧
      (main specCore (serviceOf "disableEncryptionKey") (bodyOf ["abc"])
        sampleRegistry).model.symmetricKeyCounts = none :=
  ⟨by decide, bad_request_reaches_no_core_operation specCore
    (serviceOf "disableEncryptionKey") (bodyOf ["abc"]) sampleRegistry (by decide)⟩

/-- C5: with a first argument that `toMasterKeyReference` accepts, `enableEncryptionKey`
calls `enable` with the parsed reference as its only bean operation, `disableEncryptionKey`
calls `disable` with it as its only bean operation, `reEncryptSymmetricKeys` calls the
operation of that name with it as its only bean operation, each on the state of the beans
the run started in; when the call returns, the beans are in the state the operation
returned, `model.key` is that reference, no status is set and the run ends without
exception. -/
theorem accepted_identifier_invokes_operation_once (core : Core σ ε V) (service : JSString)
    (reqBody : List (JSString × JSValue)) (w : σ) (key : JSValue) (rest : List JSValue)
    (ref : MasterKeyReference)
    (hargs : requestArguments reqBody = key :: rest)
    (hkey : (toMasterKeyReference key (Run.start w : Run σ ε V)).1 = some ref) :
    (commandOf service = "enableEncryptionKey".toList →
      beanOperations (main core service reqBody w) = [.enable ref] ∧
      ∀ w2, core.enable ref w = .ok w2 →
        (main core service reqBody w).core = w2 ∧
        (main core service reqBody w).model.key = some ref ∧
        (main core service reqBody w).status = none ∧
        (main core service reqBody w).thrown = none) ∧
    (commandOf service = "disableEncryptionKey".toList →
      beanOperations (main core service reqBody w) = [.disable ref] ∧
      ∀ w2, core.disable ref w = .ok w2 →
        (main core service reqBody w).core = w2 ∧
        (main core service reqBody w).model.key = some ref ∧
        (main core service reqBody w).status = none ∧
        (main core service reqBody w).thrown = none) ∧
    (commandOf service = "reEncryptSymmetricKeys".toList →
      beanOperations (main core service reqBody w) = [.reEncryptSymmetricKeys ref] ∧
      ∀ w2, core.reEncryptSymmetricKeys ref w = .ok w2 →
        (main core service reqBody w).core = w2 ∧
        (main core service reqBody w).model.key = some ref ∧
        (main core service reqBody w).status = none ∧
        (main core service reqBody w).thrown = none) := by
  obtain ⟨s, hs, hm, rfl⟩ := toMasterKeyReference_fst_some key _ ref hkey
  refine ⟨?_, ?_, ?_⟩
  · intro hc
    rw [main_enableEncryptionKey _ _ _ _ hc, hargs, keyEnablement_accepted _ _ _ _ _ s hs hm]
    cases hq : core.enable
        { keystoreId := partBefore s, aliasName := partAfter s } w <;>
      simp [Run.update, Run.invoke, entry, beanOperations, Call.isBeanOperation, hq]
  · intro hc
    rw [main_disableEncryptionKey _ _ _ _ hc, hargs, keyEnablement_accepted _ _ _ _ _ s hs hm]
    cases hq : core.disable
        { keystoreId := partBefore s, aliasName := partAfter s } w <;>
      simp [Run.update, Run.invoke, entry, beanOperations, Call.isBeanOperation, hq]
  · intro hc
    rw [main_reEncryptSymmetricKeys _ _ _ _ hc, hargs, reEncryptSymmetricKeys_accepted _ _ _ _ s hs hm]
    cases hq : core.reEncryptSymmetricKeys
        { keystoreId := partBefore s, aliasName := partAfter s } w <;>
      simp [Run.update, Run.invoke, entry, beanOperations, Call.isBeanOperation, hq]

/-- C7: `countEncryptedSymmetricKeys` without arguments asks for the aggregate, stores it in
`model.symmetricKeyCounts` and sets no key; with a first argument that
`toMasterKeyReference` accepts it asks for the count of the parsed reference and stores it
in `model.symmetricKeyCount`, with that reference in `model.key`; no run sets both the
aggregate and the count of one key. -/
theorem countEncryptedSymmetricKeys_aggregate_or_key (core : Core σ ε V)
    (service : JSString) (reqBody : List (JSString × JSValue)) (w : σ)
    (hcmd : commandOf service = "countEncryptedSymmetricKeys".toList) :
    (requestArguments reqBody = [] →
      beanOperations (main core service reqBody w) = [.countEncryptedSymmetricKeys none] ∧
      (main core service reqBody w).model.key = none ∧
      ∀ v, core.countEncryptedSymmetricKeys none w = .ok v →
        (main core service reqBody w).model.symmetricKeyCounts = some v) ∧
    (∀ key rest ref, requestArguments reqBody = key :: rest →
      (toMasterKeyReference key (Run.start w : Run σ ε V)).1 = some ref →
      beanOperations (main core service reqBody w) =
        [.countEncryptedSymmetricKeys (some ref)] ∧
      ∀ v, core.countEncryptedSymmetricKeys (some ref) w = .ok v →
        (main core service reqBody w).model.symmetricKeyCount = some v ∧
        (main core service reqBody w).model.key = some ref) ∧
    ¬ ((main core service reqBody w).model.symmetricKeyCount.isSome = true ∧
      (main core service reqBody w).model.symmetricKeyCounts.isSome = true) := by
  rw [main_countEncryptedSymmetricKeys _ _ _ _ hcmd]
  refine ⟨?_, ?_, ?_⟩
  · intro hargs
    rw [hargs, countSymmetricKeys_nil]
    cases hq : core.countEncryptedSymmetricKeys none w <;>
      simp [Run.query, Run.invoke, entry, beanOperations, Call.isBeanOperation, hq]
  · intro key rest ref hargs hkey
    obtain ⟨s, hs, hm, rfl⟩ := toMasterKeyReference_fst_some key _ ref hkey
    rw [hargs, countSymmetricKeys_accepted _ _ _ _ s hs hm]
    cases hq : core.countEncryptedSymmetricKeys (some
        { keystoreId := partBefore s, aliasName := partAfter s }) w <;>
      simp [Run.query, Run.invoke, entry, beanOperations, Call.isBeanOperation, hq]
  · cases hargs : requestArguments reqBody with
    | nil =>
      rw [countSymmetricKeys_nil]
      cases hq : core.countEncryptedSymmetricKeys none w <;>
        simp [Run.query, Run.invoke, entry, hq]
    | cons key rest =>
      rcases key_cases key with hs | ⟨s, hs, hm⟩ | ⟨s, hs, hm⟩
      · rw [countSymmetricKeys_thrown _ _ _ _ hs]
        simp [Run.throwTypeError, Run.invoke, entry]
      · rw [countSymmetricKeys_rejected _ _ _ _ s hs hm]
        simp [Run.setCode, Run.invoke, entry]
      · rw [countSymmetricKeys_accepted _ _ _ _ s hs hm]
        cases hq : core.countEncryptedSymmetricKeys (some
            { keystoreId := partBefore s, aliasName := partAfter s }) w <;>
          simp [Run.query, Run.invoke, entry, hq]

/-- C8: with a first argument that `toMasterKeyReference` accepts, when the operation that
`enableEncryptionKey`, `disableEncryptionKey` or `reEncryptSymmetricKeys` calls throws, the
run ends with that same exception, the failed call is its only bean operation, `model.key`
stays unset, no status is set and the state of the beans is the one the run started in. -/
theorem failed_operation_fails_command (core : Core σ ε V) (service : JSString)
    (reqBody : List (JSString × JSValue)) (w : σ) (key : JSValue) (rest : List JSValue)
    (ref : MasterKeyReference) (e : ε)
    (hargs : requestArguments reqBody = key :: rest)
    (hkey : (toMasterKeyReference key (Run.start w : Run σ ε V)).1 = some ref) :
    (commandOf service = "enableEncryptionKey".toList → core.enable ref w = .error e →
      (main core service reqBody w).thrown = some (.java e) ∧
      beanOperations (main core service reqBody w) = [.enable ref] ∧
      (main core service reqBody w).model.key = none ∧
      (main core service reqBody w).status = none ∧
      (main core service reqBody w).core = w) ∧
    (commandOf service = "disableEncryptionKey".toList → core.disable ref w = .error e →
      (main core service reqBody w).thrown = some (.java e) ∧
      beanOperations (main core service reqBody w) = [.disable ref] ∧
      (main core service reqBody w).model.key = none ∧
      (main core service reqBody w).status = none ∧
      (main core service reqBody w).core = w) ∧
    (commandOf service = "reEncryptSymmetricKeys".toList →
      core.reEncryptSymmetricKeys ref w = .error e →
      (main core service reqBody w).thrown = some (.java e) ∧
      beanOperations (main core service reqBody w) = [.reEncryptSymmetricKeys ref] ∧
      (main core service reqBody w).model.key = none ∧
      (main core service reqBody w).status = none ∧
      (main core service reqBody w).core = w) := by
  obtain ⟨s, hs, hm, rfl⟩ := toMasterKeyReference_fst_some key _ ref hkey
  refine ⟨?_, ?_, ?_⟩
  · intro hc hq
    rw [main_enableEncryptionKey _ _ _ _ hc, hargs, keyEnablement_accepted _ _ _ _ _ s hs hm]
    simp [Run.update, Run.invoke, entry, beanOperations, Call.isBeanOperation, hq]
  · intro hc hq
    rw [main_disableEncryptionKey _ _ _ _ hc, hargs, keyEnablement_accepted _ _ _ _ _ s hs hm]
    simp [Run.update, Run.invoke, entry, beanOperations, Call.isBeanOperation, hq]
  · intro hc hq
    rw [main_reEncryptSymmetricKeys _ _ _ _ hc, hargs, reEncryptSymmetricKeys_accepted _ _ _ _ s hs hm]
    simp [Run.update, Run.invoke, entry, beanOperations, Call.isBeanOperation, hq]

/-- C5 at three requests on the sample registry: enabling `ks:old`, disabling `ks:a` and
re-encrypting the symmetric keys of `ks:old`, which moves its two envelopes to `ks:a`. -/
theorem accepted_identifier_invokes_operation_once_witness :
    (beanOperations (main specCore (serviceOf "enableEncryptionKey") (bodyOf ["ks:old"])
        sampleRegistry) = [.enable (mkRef "ks" "old")] ∧
      (main specCore (serviceOf "enableEncryptionKey") (bodyOf ["ks:old"])
        sampleRegistry).core =
        sampleRegistry.setActive (mkRef "ks" "old") true ∧
      (main specCore (serviceOf "enableEncryptionKey") (bodyOf ["ks:old"])
        sampleRegistry).model.key = some (mkRef "ks" "old") ∧
      (main specCore (serviceOf "enableEncryptionKey") (bodyOf ["ks:old"])
        sampleRegistry).status = none ∧
      (main specCore (serviceOf "enableEncryptionKey") (bodyOf ["ks:old"])
        sampleRegistry).thrown = none) ∧
    (beanOperations (main specCore (serviceOf "disableEncryptionKey") (bodyOf ["ks:a"])
        sampleRegistry) = [.disable (mkRef "ks" "a")] ∧
      (main specCore (serviceOf "disableEncryptionKey") (bodyOf ["ks:a"])
        sampleRegistry).core =
        sampleRegistry.setActive (mkRef "ks" "a") false ∧
      (main specCore (serviceOf "disableEncryptionKey") (bodyOf ["ks:a"])
        sampleRegistry).model.key = some (mkRef "ks" "a") ∧
      (main specCore (serviceOf "disableEncryptionKey") (bodyOf ["ks:a"])
        sampleRegistry).status = none ∧
      (main specCore (serviceOf "disableEncryptionKey") (bodyOf ["ks:a"])
        sampleRegistry).thrown = none) ∧
    (beanOperations (main specCore (serviceOf "reEncryptSymmetricKeys") (bodyOf ["ks:old"])
        sampleRegistry) = [.reEncryptSymmetricKeys (mkRef "ks" "old")] ∧
      (main specCore (serviceOf "reEncryptSymmetricKeys") (bodyOf ["ks:old"])
        sampleRegistry).core =
        { sampleRegistry with
          envelopes := [mkRef "ks" "a", mkRef "ks" "a", mkRef "ks" "a"] } ∧
      (main specCore (serviceOf "reEncryptSymmetricKeys") (bodyOf ["ks:old"])
        sampleRegistry).model.key = some (mkRef "ks" "old") ∧
      (main specCore (serviceOf "reEncryptSymmetricKeys") (bodyOf ["ks:old"])
        sampleRegistry).status = none ∧
      (main specCore (serviceOf "reEncryptSymmetricKeys") (bodyOf ["ks:old"])
        sampleRegistry).thrown = none) :=
  have t1 := (accepted_identifier_invokes_operation_once specCore
    (serviceOf "enableEncryptionKey") (bodyOf ["ks:old"]) sampleRegistry
    (.string "ks:old".toList) [] (mkRef "ks" "old") rfl (by decide)).1 (by decide)
  have t2 := (accepted_identifier_invokes_operation_once specCore
    (serviceOf "disableEncryptionKey") (bodyOf ["ks:a"]) sampleRegistry
    (.string "ks:a".toList) [] (mkRef "ks" "a") rfl (by decide)).2.1 (by decide)
  have t3 := (accepted_identifier_invokes_operation_once specCore
    (serviceOf "reEncryptSymmetricKeys") (bodyOf ["ks:old"]) sampleRegistry
    (.string "ks:old".toList) [] (mkRef "ks" "old") rfl (by decide)).2.2 (by decide)
  ⟨⟨t1.1, t1.2 (sampleRegistry.setActive (mkRef "ks" "old") true) rfl⟩,
    ⟨t2.1, t2.2 (sampleRegistry.setActive (mkRef "ks" "a") false) rfl⟩,
    ⟨t3.1, t3.2 { sampleRegistry with
      envelopes := [mkRef "ks" "a", mkRef "ks" "a", mkRef "ks" "a"] } rfl⟩⟩

/-- C7 at two requests on the sample registry: the count without argument is the three
envelopes, the count for `ks:old` is two. -/
theorem countEncryptedSymmetricKeys_aggregate_or_key_witness :
    (beanOperations (main specCore (serviceOf "countEncryptedSymmetricKeys") (bodyOf [])
        sampleRegistry) = [.countEncryptedSymmetricKeys none] ∧
      (main specCore (serviceOf "countEncryptedSymmetricKeys") (bodyOf [])
        sampleRegistry).model.key = none ∧
      (main specCore (serviceOf "countEncryptedSymmetricKeys") (bodyOf [])
        sampleRegistry).model.symmetricKeyCounts = some (.count 3)) ∧
    (beanOperations (main specCore (serviceOf "countEncryptedSymmetricKeys")
        (bodyOf ["ks:old"]) sampleRegistry) =
        [.countEncryptedSymmetricKeys (some (mkRef "ks" "old"))] ∧
      (main specCore (serviceOf "countEncryptedSymmetricKeys") (bodyOf ["ks:old"])
        sampleRegistry).model.symmetricKeyCount = some (.count 2) ∧
      (main specCore (serviceOf "countEncryptedSymmetricKeys") (bodyOf ["ks:old"])
        sampleRegistry).model.key = some (mkRef "ks" "old")) :=
  have t1 := (countEncryptedSymmetricKeys_aggregate_or_key specCore
    (serviceOf "countEncryptedSymmetricKeys") (bodyOf []) sampleRegistry (by decide)).1 rfl
  have t2 := (countEncryptedSymmetricKeys_aggregate_or_key specCore
    (serviceOf "countEncryptedSymmetricKeys") (bodyOf ["ks:old"]) sampleRegistry
    (by decide)).2.1 (.string "ks:old".toList) [] (mkRef "ks" "old") rfl (by decide)
  ⟨⟨t1.1, t1.2.1, t1.2.2 (.count 3) rfl⟩, ⟨t2.1, t2.2 (.count 2) rfl⟩⟩

/-- C8 at three requests on the registry whose only key is the Active key `ks:a`: enabling
the unknown `ks:b`, disabling the sole Active key `ks:a`, and re-encrypting under the unknown
`ks:b`. -/
theorem failed_operation_fails_command_witness :
    ((main specCore (serviceOf "enableEncryptionKey") (bodyOf ["ks:b"])
        soleKeyRegistry).thrown = some (.java .UnknownMasterKey) ∧
      beanOperations (main specCore (serviceOf "enableEncryptionKey") (bodyOf ["ks:b"])
        soleKeyRegistry) = [.enable (mkRef "ks" "b")] ∧
      (main specCore (serviceOf "enableEncryptionKey") (bodyOf ["ks:b"])
        soleKeyRegistry).model.key = none ∧
      (main specCore (serviceOf "enableEncryptionKey") (bodyOf ["ks:b"])
        soleKeyRegistry).status = none ∧
      (main specCore (serviceOf "enableEncryptionKey") (bodyOf ["ks:b"])
        soleKeyRegistry).core = soleKeyRegistry) ∧
    ((main specCore (serviceOf "disableEncryptionKey") (bodyOf ["ks:a"])
        soleKeyRegistry).thrown = some (.java .CannotDisableLastActiveKey) ∧
      beanOperations (main specCore (serviceOf "disableEncryptionKey") (bodyOf ["ks:a"])
        soleKeyRegistry) = [.disable (mkRef "ks" "a")] ∧
      (main specCore (serviceOf "disableEncryptionKey") (bodyOf ["ks:a"])
        soleKeyRegistry).model.key = none ∧
      (main specCore (serviceOf "disableEncryptionKey") (bodyOf ["ks:a"])
        soleKeyRegistry).status = none ∧
      (main specCore (serviceOf "disableEncryptionKey") (bodyOf ["ks:a"])
        soleKeyRegistry).core = soleKeyRegistry) ∧
    ((main specCore (serviceOf "reEncryptSymmetricKeys") (bodyOf ["ks:b"])
        soleKeyRegistry).thrown = some (.java .UnknownMasterKey) ∧
      beanOperations (main specCore (serviceOf "reEncryptSymmetricKeys") (bodyOf ["ks:b"])
        soleKeyRegistry) = [.reEncryptSymmetricKeys (mkRef "ks" "b")] ∧
      (main specCore (serviceOf "reEncryptSymmetricKeys") (bodyOf ["ks:b"])
        soleKeyRegistry).model.key = none ∧
      (main specCore (serviceOf "reEncryptSymmetricKeys") (bodyOf ["ks:b"])
        soleKeyRegistry).status = none ∧
      (main specCore (serviceOf "reEncryptSymmetricKeys") (bodyOf ["ks:b"])
        soleKeyRegistry).core = soleKeyRegistry) :=
  ⟨(failed_operation_fails_command specCore (serviceOf "enableEncryptionKey")
      (bodyOf ["ks:b"]) soleKeyRegistry (.string "ks:b".toList) [] (mkRef "ks" "b")
      .UnknownMasterKey rfl (by decide)).1 (by decide) rfl,
    (failed_operation_fails_command specCore (serviceOf "disableEncryptionKey")
      (bodyOf ["ks:a"]) soleKeyRegistry (.string "ks:a".toList) [] (mkRef "ks" "a")
      .CannotDisableLastActiveKey rfl (by decide)).2.1 (by decide) rfl,
    (failed_operation_fails_command specCore (serviceOf "reEncryptSymmetricKeys")
      (bodyOf ["ks:b"]) soleKeyRegistry (.string "ks:b".toList) [] (mkRef "ks" "b")
      .UnknownMasterKey rfl (by decide)).2.2 (by decide) rfl⟩

/-- C6: `listEncryptionKeys` with no argument or with the first argument `active` asks the
key manager for its active keys and stores them in `model.keys`; with the first argument
`inactive` it does the same with the disabled keys; with any other string as first
argument, the empty one included, it sets bad-request, leaves `model.keys` unset and calls
nothing at all. -/
theorem listEncryptionKeys_modes (core : Core σ ε V) (service : JSString)
    (reqBody : List (JSString × JSValue)) (w : σ)
    (hcmd : commandOf service = "listEncryptionKeys".toList) :
    ((requestArguments reqBody = [] ∨
        ∃ rest, requestArguments reqBody = JSValue.string "active".toList :: rest) →
      beanOperations (main core service reqBody w) = [.activeKeys] ∧
      (main core service reqBody w).status = none ∧
      ∀ v, core.activeKeys w = .ok v → (main core service reqBody w).model.keys = some v) ∧
    ((∃ rest, requestArguments reqBody = JSValue.string "inactive".toList :: rest) →
      beanOperations (main core service reqBody w) = [.disabledKeys] ∧
      (main core service reqBody w).status = none ∧
      ∀ v, core.disabledKeys w = .ok v → (main core service reqBody w).model.keys = some v) ∧
    (∀ s rest, requestArguments reqBody = JSValue.string s :: rest →
      s ≠ "active".toList → s ≠ "inactive".toList →
      statusCode (main core service reqBody w) = some .STATUS_BAD_REQUEST ∧
      (main core service reqBody w).model.keys = none ∧
      (main core service reqBody w).calls = []) := by
  rw [main_listEncryptionKeys _ _ _ _ hcmd]
  refine ⟨?_, ?_, ?_⟩
  · rintro (hargs | ⟨rest, hargs⟩)
    · rw [hargs]
      have h1 : (if ([] : List JSValue).length ≥ 1 then
          (modePattern.test (elementAt [] 0)).map (fun m => !m) else some false) =
          some false := rfl
      have h2 : ((elementAt [] 0).or (.string "active".toList)).toJSString =
          some "active".toList := rfl
      rw [h1]
      simp only []
      rw [h2]
      simp only [if_true]
      cases hq : core.activeKeys w <;>
        simp [Run.query, Run.invoke, entry, beanOperations, Call.isBeanOperation, hq]
    · rw [hargs]
      have h1 : (if (JSValue.string "active".toList :: rest).length ≥ 1 then
          (modePattern.test (elementAt (JSValue.string "active".toList :: rest) 0)).map
            (fun m => !m) else some false) = some false := by
        rw [if_pos (by simp)]
        show (modePattern.test (JSValue.string "active".toList)).map (fun m => !m) = some false
        decide
      have h2 : ((elementAt (JSValue.string "active".toList :: rest) 0).or
          (.string "active".toList)).toJSString = some "active".toList := rfl
      rw [h1]
      simp only []
      rw [h2]
      simp only [if_true]
      cases hq : core.activeKeys w <;>
        simp [Run.query, Run.invoke, entry, beanOperations, Call.isBeanOperation, hq]
  · rintro ⟨rest, hargs⟩
    rw [hargs]
    have h1 : (if (JSValue.string "inactive".toList :: rest).length ≥ 1 then
        (modePattern.test (elementAt (JSValue.string "inactive".toList :: rest) 0)).map
          (fun m => !m) else some false) = some false := by
      rw [if_pos (by simp)]
      show (modePattern.test (JSValue.string "inactive".toList)).map (fun m => !m) = some false
      decide
    have h2 : ((elementAt (JSValue.string "inactive".toList :: rest) 0).or
        (.string "active".toList)).toJSString = some "inactive".toList := rfl
    rw [h1]
    simp only []
    rw [h2]
    simp only []
    rw [if_neg (by decide)]
    cases hq : core.disabledKeys w <;>
      simp [Run.query, Run.invoke, entry, beanOperations, Call.isBeanOperation, hq]
  · intro s rest hargs hs1 hs2
    rw [hargs]
    have ht : modePattern.fullMatch s = false := by
      apply Bool.eq_false_iff.mpr
      intro hm
      rcases (modePattern_fullMatch_iff s).mp hm with h | h
      · exact hs1 h
      · exact hs2 h
    have h1 : (if (JSValue.string s :: rest).length ≥ 1 then
        (modePattern.test (elementAt (JSValue.string s :: rest) 0)).map
          (fun m => !m) else some false) = some true := by
      rw [if_pos (by simp)]
      show some (!modePattern.fullMatch s) = some true
      rw [ht]
      rfl
    rw [h1]
    simp [Run.setCode, entry, statusCode]

/-- C6 at four requests on the sample registry: no argument, `active`, `inactive` and the
empty string. -/
theorem listEncryptionKeys_modes_witness :
    ((main specCore (serviceOf "listEncryptionKeys") (bodyOf []) sampleRegistry).model.keys =
        some (.keys [mkRef "ks" "a", mkRef "ks" "b"]) ∧
      (main specCore (serviceOf "listEncryptionKeys") (bodyOf ["active"])
        sampleRegistry).model.keys = some (.keys [mkRef "ks" "a", mkRef "ks" "b"])) ∧
    (main specCore (serviceOf "listEncryptionKeys") (bodyOf ["inactive"])
      sampleRegistry).model.keys = some (.keys [mkRef "ks" "old"]) ∧
    (statusCode (main specCore (serviceOf "listEncryptionKeys") (bodyOf [""])
        sampleRegistry) = some .STATUS_BAD_REQUEST ∧
      (main specCore (serviceOf "listEncryptionKeys") (bodyOf [""])
        sampleRegistry).model.keys = none ∧
      (main specCore (serviceOf "listEncryptionKeys") (bodyOf [""])
        sampleRegistry).calls = []) :=
  ⟨⟨((listEncryptionKeys_modes specCore (serviceOf "listEncryptionKeys") (bodyOf [])
        sampleRegistry (by decide)).1 (Or.inl rfl)).2.2 _ rfl,
      ((listEncryptionKeys_modes specCore (serviceOf "listEncryptionKeys") (bodyOf ["active"])
        sampleRegistry (by decide)).1 (Or.inr ⟨[], rfl⟩)).2.2 _ rfl⟩,
    ((listEncryptionKeys_modes specCore (serviceOf "listEncryptionKeys") (bodyOf ["inactive"])
      sampleRegistry (by decide)).2.1 ⟨[], rfl⟩).2.2 _ rfl,
    (listEncryptionKeys_modes specCore (serviceOf "listEncryptionKeys") (bodyOf [""])
      sampleRegistry (by decide)).2.2 [] [] rfl (by decide) (by decide)⟩

/-- C10: `model.command` is the part of the service URL after its last slash, the whole URL
when it has none; for a command that is none of the seven known ones, `main` sets
not-found, calls nothing and sets no other property of the model, whatever the request
body is; for `help` it sets no status and calls nothing. -/
theorem main_command_dispatch (core : Core σ ε V) (service : JSString)
    (reqBody : List (JSString × JSValue)) (w : σ) :
    (main core service reqBody w).model.command = some (commandOf service) ∧
    (((∀ c ∈ service, c ≠ '/') ∧ commandOf service = service) ∨
      ∃ a, service = a ++ '/' :: commandOf service ∧ ∀ c ∈ commandOf service, c ≠ '/') ∧
    (commandOf service ∉ knownCommands →
      statusCode (main core service reqBody w) = some .STATUS_NOT_FOUND ∧
      (main core service reqBody w).calls = [] ∧
      (main core service reqBody w).thrown = none ∧
      (main core service reqBody w).model.keys = none ∧
      (main core service reqBody w).model.key = none ∧
      (main core service reqBody w).model.symmetricKeyCount = none ∧
      (main core service reqBody w).model.symmetricKeyCounts = none) ∧
    (commandOf service = "help".toList →
      (main core service reqBody w).status = none ∧
      (main core service reqBody w).calls = [] ∧
      (main core service reqBody w).thrown = none) := by
  refine ⟨?_, commandOf_spec service, ?_, ?_⟩
  · rcases command_cases (commandOf service) with hc | hc | hc | hc | hc | hc | hc | hc
    · rw [main_help _ _ _ _ hc]; rfl
    · rw [main_listEncryptionKeys _ _ _ _ hc]
      split
      · rfl
      · rfl
      · split
        · rfl
        · split
          · cases hq : core.activeKeys w <;> simp [Run.query, Run.invoke, entry, hq]
          · cases hq : core.disabledKeys w <;> simp [Run.query, Run.invoke, entry, hq]
    · rw [main_enableEncryptionKey _ _ _ _ hc]
      cases hargs : requestArguments reqBody with
      | nil => rw [keyEnablement_nil]; rfl
      | cons key rest =>
        rcases key_cases key with hs | ⟨s, hs, hm⟩ | ⟨s, hs, hm⟩
        · rw [keyEnablement_thrown _ _ _ _ _ hs]; rfl
        · rw [keyEnablement_rejected _ _ _ _ _ s hs hm]; rfl
        · rw [keyEnablement_accepted _ _ _ _ _ s hs hm]
          cases hq : core.enable
              { keystoreId := partBefore s, aliasName := partAfter s } w <;>
            simp [Run.update, Run.invoke, entry, hq]
    · rw [main_disableEncryptionKey _ _ _ _ hc]
      cases hargs : requestArguments reqBody with
      | nil => rw [keyEnablement_nil]; rfl
      | cons key rest =>
        rcases key_cases key with hs | ⟨s, hs, hm⟩ | ⟨s, hs, hm⟩
        · rw [keyEnablement_thrown _ _ _ _ _ hs]; rfl
        · rw [keyEnablement_rejected _ _ _ _ _ s hs hm]; rfl
        · rw [keyEnablement_accepted _ _ _ _ _ s hs hm]
          cases hq : core.disable
              { keystoreId := partBefore s, aliasName := partAfter s } w <;>
            simp [Run.update, Run.invoke, entry, hq]
    · rw [main_countEncryptedSymmetricKeys _ _ _ _ hc]
      cases hargs : requestArguments reqBody with
      | nil =>
        rw [countSymmetricKeys_nil]
        cases hq : core.countEncryptedSymmetricKeys none w <;>
          simp [Run.query, Run.invoke, entry, hq]
      | cons key rest =>
        rcases key_cases key with hs | ⟨s, hs, hm⟩ | ⟨s, hs, hm⟩
        · rw [countSymmetricKeys_thrown _ _ _ _ hs]; rfl
        · rw [countSymmetricKeys_rejected _ _ _ _ s hs hm]; rfl
        · rw [countSymmetricKeys_accepted _ _ _ _ s hs hm]
          cases hq : core.countEncryptedSymmetricKeys (some
              { keystoreId := partBefore s, aliasName := partAfter s }) w <;>
            simp [Run.query, Run.invoke, entry, hq]
    · rw [main_listEncryptionKeysEligibleForReEncryption _ _ _ _ hc]
      cases hq : core.keysRequiringReEncryption w <;>
        simp [Run.query, Run.invoke, entry, hq]
    · rw [main_reEncryptSymmetricKeys _ _ _ _ hc]
      cases hargs : requestArguments reqBody with
      | nil => rw [reEncryptSymmetricKeys_nil]; rfl
      | cons key rest =>
        rcases key_cases key with hs | ⟨s, hs, hm⟩ | ⟨s, hs, hm⟩
        · rw [reEncryptSymmetricKeys_thrown _ _ _ _ hs]; rfl
        · rw [reEncryptSymmetricKeys_rejected _ _ _ _ s hs hm]; rfl
        · rw [reEncryptSymmetricKeys_accepted _ _ _ _ s hs hm]
          cases hq : core.reEncryptSymmetricKeys
              { keystoreId := partBefore s, aliasName := partAfter s } w <;>
            simp [Run.update, Run.invoke, entry, hq]
    · rw [main_unknown _ _ _ _ hc]; rfl
  · intro hc
    rw [main_unknown _ _ _ _ hc]
    simp [Run.setCode, entry, statusCode]
  · intro hc
    rw [main_help _ _ _ _ hc]
    simp [entry]

/-- C10 at two requests on the sample registry: the unknown command `dropKeys` with an
identifier as argument, and `help`. -/
theorem main_command_dispatch_witness :
    (statusCode (main specCore (serviceOf "dropKeys") (bodyOf ["ks:a"]) sampleRegistry) =
        some .STATUS_NOT_FOUND ∧
      (main specCore (serviceOf "dropKeys") (bodyOf ["ks:a"]) sampleRegistry).calls = [] ∧
      (main specCore (serviceOf "dropKeys") (bodyOf ["ks:a"]) sampleRegistry).thrown = none ∧
      (main specCore (serviceOf "dropKeys") (bodyOf ["ks:a"])
        sampleRegistry).model.keys = none ∧
      (main specCore (serviceOf "dropKeys") (bodyOf ["ks:a"])
        sampleRegistry).model.key = none ∧
      (main specCore (serviceOf "dropKeys") (bodyOf ["ks:a"])
        sampleRegistry).model.symmetricKeyCount = none ∧
      (main specCore (serviceOf "dropKeys") (bodyOf ["ks:a"])
        sampleRegistry).model.symmetricKeyCounts = none) ∧
    ((main specCore (serviceOf "help") (bodyOf []) sampleRegistry).status = none ∧
      (main specCore (serviceOf "help") (bodyOf []) sampleRegistry).calls = [] ∧
      (main specCore (serviceOf "help") (bodyOf []) sampleRegistry).thrown = none) :=
  ⟨(main_command_dispatch specCore (serviceOf "dropKeys") (bodyOf ["ks:a"])
      sampleRegistry).2.2.1 (by decide),
    (main_command_dispatch specCore (serviceOf "help") (bodyOf [])
      sampleRegistry).2.2.2 (by decide)⟩

end CommandClaims

end ConsoleCommands
